import Mathlib

/-!
Verification of the Timestamp Recognition & Voting Engine of
`PNG_timestamp_extract.py` (repository SNPL_GSL).

The Python source is shallowly embedded below.  Strings are modelled as
`List Char`; Python floats (all weights are small decimal constants that are
only added and compared) are modelled as exact rationals `ℚ`; Python ints are
`Nat`.  Each definition carries a comment pointing to the Python function it
translates.  The external pieces (cv2 image transforms and the Tesseract OCR
engine) are treated, as in the repository's own design, as a black-box
function from (ROI tag, variant tag) to raw text.
-/

namespace SNPL

/-! ### Character classes

Python's `str.strip()` / regex `\s` whitespace class (ASCII part), `\d` digits
(ASCII part), and the character sets used by `normalize_ocr`.
All classes are expressed through `Char.toNat` codes to keep proofs
arithmetic:  32 space, 9 tab, 10 newline, 11 vertical tab, 12 form feed,
13 carriage return; 48–57 are the digits; 58 is a colon; 45 is a hyphen. -/

def isPySpace (c : Char) : Bool := c.toNat = 32 ∨ (9 ≤ c.toNat ∧ c.toNat ≤ 13)

def isDig (c : Char) : Bool := 48 ≤ c.toNat ∧ c.toNat ≤ 57

def nonDig (c : Char) : Bool := !(isDig c)

/-- Test for one specific character by its code point. -/
def cIs (n : Nat) (c : Char) : Bool := c.toNat = n

/-- The character of a decimal digit `n < 10`. -/
def dchr (n : Nat) : Char := Char.ofNat (48 + n)

/-- `SLASH_RE = [\/\\∕⁄／＼]`: '/', '\', division slash,
fraction slash, fullwidth solidus, fullwidth reverse solidus. -/
def isSlashLike (c : Char) : Bool :=
  c.toNat = 47 ∨ c.toNat = 92 ∨ c.toNat = 0x2215 ∨ c.toNat = 0x2044 ∨
  c.toNat = 0xFF0F ∨ c.toNat = 0xFF3C

/-- The chained `str.replace` calls of `normalize_ocr`: 'O'/'o' → '0',
'I'/'l' → '1', 'S' → '5', 'B' → '8', em dash U+2014 / en dash U+2013 → '-'.
No replacement output is a source of a later replacement, so the chain is
a single character map. -/
def confus (c : Char) : Char :=
  if c.toNat = 79 ∨ c.toNat = 111 then '0'
  else if c.toNat = 73 ∨ c.toNat = 108 then '1'
  else if c.toNat = 83 then '5'
  else if c.toNat = 66 then '8'
  else if c.toNat = 0x2014 ∨ c.toNat = 0x2013 then '-'
  else c

/-- Python `str.strip()` (whitespace from both ends). -/
def pyStrip (s : List Char) : List Char :=
  ((s.dropWhile isPySpace).reverse.dropWhile isPySpace).reverse

/-- `re.sub(r'\s+', ' ', t)`: every maximal whitespace run becomes one space.
The Boolean argument records whether the previous char was part of a
whitespace run. -/
def collapseWsAux : Bool → List Char → List Char
  | _, [] => []
  | inRun, c :: r =>
    if isPySpace c then
      if inRun then collapseWsAux true r else ' ' :: collapseWsAux true r
    else c :: collapseWsAux false r

/-- `re.sub(r'X{2,}', 'X', t)` for a single character with code `t`:
every maximal run of that character becomes one occurrence. -/
def collapseRunAux (t : Nat) : Bool → List Char → List Char
  | _, [] => []
  | inRun, c :: r =>
    if c.toNat = t then
      if inRun then collapseRunAux t true r else c :: collapseRunAux t true r
    else c :: collapseRunAux t false r

/-- `normalize_ocr` (PNG_timestamp_extract.py lines 115–127). -/
def normalize_ocr (s : List Char) : List Char :=
  if s.isEmpty then []
  else
    let t1 := s.map (fun c => if c.toNat = 10 then ' ' else c)
    let t2 := pyStrip t1
    let t3 := t2.map confus
    let t4 := t3.filter (fun c => !(isSlashLike c))
    let t5 := collapseWsAux false t4
    let t6 := collapseRunAux 58 false t5
    collapseRunAux 45 false t6

/-! ### Triplet repair

`TRIPLET_FIELD = re.compile(r'([:\s])(\d{3})(?=[:\s]|$)')` and
`repair_time_triplets` (lines 104–113).  `re.sub` scans left to right;
a match consumes the delimiter and the three digits (the lookahead is not
consumed), and scanning resumes after the consumed text whether or not the
`_fix` callback shortened the run. -/

def isDelim (c : Char) : Bool := cIs 58 c || isPySpace c

/-- The `(?=[:\s]|$)` lookahead on the remaining input. -/
def triBoundary : List Char → Bool
  | [] => true
  | c :: _ => isDelim c

/-- Numeric value of a two-character digit string, as `int` would read it. -/
def twoDigitVal (b d : Char) : Nat := (b.toNat - 48) * 10 + (d.toNat - 48)

/-- The `_fix` replacement: keep the last two digits when the first digit is
'0' or '1' and those two digits form a value ≤ 59, else leave the run. -/
def triFix (a b d : Char) : List Char :=
  if (a.toNat = 48 ∨ a.toNat = 49) ∧ twoDigitVal b d ≤ 59 then [b, d] else [a, b, d]

/-- Left-to-right `re.sub` scan.  The fuel argument (always at least the
length of the list, so the `0` case is unreachable) makes the recursion
structural and hence kernel-reducible. -/
def repairAux : Nat → List Char → List Char
  | 0, s => s
  | _ + 1, [] => []
  | fuel + 1, c :: rest =>
    match rest with
    | a :: b :: d :: rest2 =>
      if isDelim c ∧ isDig a ∧ isDig b ∧ isDig d ∧ triBoundary rest2 then
        (c :: triFix a b d) ++ repairAux fuel rest2
      else c :: repairAux fuel rest
    | _ => c :: repairAux fuel rest

def repair_time_triplets (s : List Char) : List Char := repairAux s.length s

/-! ### A small backtracking pattern engine

The parsing regexes of the source are transliterated into combinators.
A `Matcher` takes the captures collected so far and the input, and returns
every way the pattern can match a prefix of the input, as a list of
(captures, remaining input) pairs in Python's backtracking priority order
(greedy bounded repetitions try the longest count first, lazy ones the
shortest).  `re.search` then corresponds to trying each start position from
the left and taking the first (highest-priority) success. -/

abbrev Caps := List (List Char)

abbrev Matcher := Caps → List Char → List (Caps × List Char)

/-- Empty pattern. -/
def pNil : Matcher := fun cs s => [(cs, s)]

/-- Concatenation of two patterns, preserving priority order. -/
def pSeq (a b : Matcher) : Matcher := fun cs s => (a cs s).flatMap fun r => b r.1 r.2

/-- Concatenation of a list of patterns. -/
def pCat (l : List Matcher) : Matcher := l.foldr pSeq pNil

/-- One character of a class. -/
def pChar (p : Char → Bool) : Matcher := fun cs s =>
  match s with
  | [] => []
  | c :: r => if p c then [(cs, r)] else []

/-- The `$` anchor. -/
def pEnd : Matcher := fun cs s => match s with | [] => [(cs, [])] | _ :: _ => []

/-- Length of the longest prefix of `s` whose characters satisfy `p`. -/
def prefixLen (p : Char → Bool) : List Char → Nat
  | [] => 0
  | c :: r => if p c then prefixLen p r + 1 else 0

/-- Greedy bounded repetition `p{lo,hi}` of a character class: alternatives
consume `mx, mx-1, …, lo` characters where `mx` is the most available. -/
def pRepG (p : Char → Bool) (lo hi : Nat) : Matcher := fun cs s =>
  let mx := min hi (prefixLen p s)
  if mx < lo then [] else (List.range (mx + 1 - lo)).map fun i => (cs, s.drop (mx - i))

/-- Lazy bounded repetition `p{lo,hi}?`: alternatives consume `lo, …, mx`. -/
def pRepL (p : Char → Bool) (lo hi : Nat) : Matcher := fun cs s =>
  let mx := min hi (prefixLen p s)
  if mx < lo then [] else (List.range (mx + 1 - lo)).map fun i => (cs, s.drop (lo + i))

/-- Greedy unbounded repetition `p*` of a character class. -/
def pStar (p : Char → Bool) : Matcher := fun cs s =>
  let mx := prefixLen p s
  (List.range (mx + 1)).map fun i => (cs, s.drop (mx - i))

/-- A capturing group around a pattern (no nested groups are used by the
source patterns, so the captured text is the consumed prefix). -/
def pGrp (m : Matcher) : Matcher := fun cs s =>
  (m cs s).map fun r => (r.1 ++ [s.take (s.length - r.2.length)], r.2)

/-- `re.search`: try each start position left to right, take the first
success (within one position, priority order of the pattern). Returns the
captures and the input remaining after the match (`m.end()`). -/
def searchFrom (m : Matcher) : List Char → Option (Caps × List Char)
  | [] => match m [] [] with | r :: _ => some r | [] => none
  | s@(_ :: t) => match m [] s with | r :: _ => some r | [] => searchFrom m t

/-- `int` on a captured all-digit string. -/
def toVal (l : List Char) : Nat := l.foldl (fun a c => a * 10 + (c.toNat - 48)) 0

/-! ### The timestamp patterns (lines 77–85 of the source) -/

/-- `(20\d{2})` -/
def pYear : Matcher := pGrp (pCat [pChar (cIs 50), pChar (cIs 48), pChar isDig, pChar isDig])

/-- `(\d{2})` -/
def p2d : Matcher := pGrp (pCat [pChar isDig, pChar isDig])

/-- `(\d{1,2})` -/
def p12d : Matcher := pGrp (pRepG isDig 1 2)

/-- `.` (any char except newline). -/
def anyNoNl (c : Char) : Bool := !(cIs 10 c)

/-- Stage-0 date anchor `(20\d{2})\D{0,4}(\d{2})\D{0,4}(\d{2})` (line 175). -/
def datePat : Matcher :=
  pCat [pYear, pRepG nonDig 0 4, p2d, pRepG nonDig 0 4, p2d]

/-- Stage-0 time `(\d{1,2})\s*:\s*(\d{2})\s*:\s*(\d{2})` (line 179). -/
def timePat : Matcher :=
  pCat [p12d, pStar isPySpace, pChar (cIs 58), pStar isPySpace, p2d,
        pStar isPySpace, pChar (cIs 58), pStar isPySpace, p2d]

/-- `DATE_THEN_TIME_1OR2H` (line 78):
`(20\d{2})\D{0,5}(\d{2})\D{0,5}(\d{2}).{0,12}?(\d{1,2})\D{0,3}(\d{2})\D{0,3}(\d{2})` -/
def dtt12Pat : Matcher :=
  pCat [pYear, pRepG nonDig 0 5, p2d, pRepG nonDig 0 5, p2d,
        pRepL anyNoNl 0 12, p12d, pRepG nonDig 0 3, p2d, pRepG nonDig 0 3, p2d]

/-- `FLEX_PAT` (line 77):
`(20\d{2})\D{0,4}(\d{2})\D{0,4}(\d{2})\D{0,6}(\d{1,2})\D{0,4}(\d{2})\D{0,4}(\d{2})` -/
def flexPat : Matcher :=
  pCat [pYear, pRepG nonDig 0 4, p2d, pRepG nonDig 0 4, p2d,
        pRepG nonDig 0 6, p12d, pRepG nonDig 0 4, p2d, pRepG nonDig 0 4, p2d]

/-- `[ T]` -/
def spaceOrT (c : Char) : Bool := cIs 32 c || cIs 84 c

/-- `TS_PATTERNS[0]`: `(20\d{2})-(\d{2})-(\d{2})[ T](\d{2}):(\d{2}):(\d{2})` -/
def tsPat0 : Matcher :=
  pCat [pYear, pChar (cIs 45), p2d, pChar (cIs 45), p2d, pChar spaceOrT,
        p2d, pChar (cIs 58), p2d, pChar (cIs 58), p2d]

/-- `TS_PATTERNS[1]`: `(20\d{2})(\d{2})(\d{2})[ T]?(\d{2})(\d{2})(\d{2})` -/
def tsPat1 : Matcher :=
  pCat [pYear, p2d, p2d, pRepG spaceOrT 0 1, p2d, p2d, p2d]

/-- `TS_PATTERNS[2]`: `(20\d{2})-(\d{2})-(\d{2}).{0,3}(\d{2}).{0,3}(\d{2}).{0,3}(\d{2})` -/
def tsPat2 : Matcher :=
  pCat [pYear, pChar (cIs 45), p2d, pChar (cIs 45), p2d, pRepG anyNoNl 0 3,
        p2d, pRepG anyNoNl 0 3, p2d, pRepG anyNoNl 0 3, p2d]

/-! ### Calendar validity (`datetime.datetime`) -/

structure Parts where
  y : Nat
  mo : Nat
  d : Nat
  h : Nat
  mi : Nat
  s : Nat
deriving DecidableEq, Repr

def isLeap (y : Nat) : Bool := y % 4 = 0 ∧ (y % 100 ≠ 0 ∨ y % 400 = 0)

def daysInMonth (y m : Nat) : Nat :=
  if m = 2 then (if isLeap y then 29 else 28)
  else if m = 4 ∨ m = 6 ∨ m = 9 ∨ m = 11 then 30
  else 31

/-- The argument checks of the `datetime.datetime` constructor
(MINYEAR 1, MAXYEAR 9999, valid month/day/hour/minute/second). -/
def validDT (p : Parts) : Bool :=
  1 ≤ p.y ∧ p.y ≤ 9999 ∧ 1 ≤ p.mo ∧ p.mo ≤ 12 ∧ 1 ≤ p.d ∧
  p.d ≤ daysInMonth p.y p.mo ∧ p.h ≤ 23 ∧ p.mi ≤ 59 ∧ p.s ≤ 59

/-- `dt.datetime(y, M, d, h, m, s)`: the constructed value on success,
`none` for the `ValueError` branch. -/
def mkDatetime (y mo d h mi s : Nat) : Option Parts :=
  if validDT ⟨y, mo, d, h, mi, s⟩ then some ⟨y, mo, d, h, mi, s⟩ else none

/-! ### The parsing cascade (`parse_timestamp_flex`, lines 168–219) -/

/-- Stage (0): anchor on the date, then a colonized time in the rest. -/
def stage0 (t : List Char) : Option Parts :=
  match searchFrom datePat t with
  | some ([ys, ms, ds], rest) =>
    match searchFrom timePat rest with
    | some ([hs, mis, ss], _) =>
      mkDatetime (toVal ys) (toVal ms) (toVal ds) (toVal hs) (toVal mis) (toVal ss)
    | _ => none
  | _ => none

/-- A stage built from one six-group pattern. -/
def stageSix (m : Matcher) (t : List Char) : Option Parts :=
  match searchFrom m t with
  | some ([a, b, c, d, e, f], _) =>
    mkDatetime (toVal a) (toVal b) (toVal c) (toVal d) (toVal e) (toVal f)
  | _ => none

/-- `_pairify` (lines 131–135): `re.match(r'^\s*(\d)\D?(\d)\s*$', x)` then
`int(group1 + group2)`. -/
def pairifyPat : Matcher :=
  pCat [pStar isPySpace, pGrp (pChar isDig), pRepG nonDig 0 1,
        pGrp (pChar isDig), pStar isPySpace, pEnd]

def pairify (l : List Char) : Option Nat :=
  match pairifyPat [] l with
  | ([a, b], _) :: _ => some (toVal (a ++ b))
  | _ => none

/-- The pair pattern `(\d\D?\d)` of `_grab_fields_loose.next_pair`. -/
def pairSearchPat : Matcher := pGrp (pCat [pChar isDig, pRepG nonDig 0 1, pChar isDig])

/-- `next_pair`: search the pair pattern, `_pairify` its text, and return the
value together with the input remaining after the match. `_pairify` cannot
fail on a `(\d\D?\d)` match; its failure is mapped to `none` here. -/
def nextPair (s : List Char) : Option (Nat × List Char) :=
  match searchFrom pairSearchPat s with
  | some ([g], rest) => (pairify g).map (fun v => (v, rest))
  | _ => none

/-- `(20\d{2})` as used by `_grab_fields_loose`'s year search. -/
def yearSearchPat : Matcher := pYear

/-- `_grab_fields_loose` (lines 137–166): anchor on the year, then greedily
take five further pairs, then build the datetime. -/
def grabFieldsLoose (t : List Char) : Option Parts :=
  match searchFrom yearSearchPat t with
  | some ([ys], rest0) =>
    match nextPair rest0 with
    | none => none
    | some (mo, r1) =>
      match nextPair r1 with
      | none => none
      | some (d, r2) =>
        match nextPair r2 with
        | none => none
        | some (h, r3) =>
          match nextPair r3 with
          | none => none
          | some (mi, r4) =>
            match nextPair r4 with
            | none => none
            | some (s, _) => mkDatetime (toVal ys) mo d h mi s
  | _ => none

/-- `parse_timestamp_flex` (lines 168–219): normalize, repair, then the
five-stage cascade, each failed numeric match or calendar-invalid candidate
falling through to the next stage. -/
def parse_timestamp_flex (raw : List Char) : Option Parts :=
  if raw.isEmpty then none
  else
    let t := repair_time_triplets (normalize_ocr raw)
    (((((((stage0 t).orElse fun _ => stageSix dtt12Pat t).orElse fun _ =>
        grabFieldsLoose t).orElse fun _ => stageSix flexPat t).orElse fun _ =>
        stageSix tsPat0 t).orElse fun _ => stageSix tsPat1 t).orElse fun _ =>
        stageSix tsPat2 t)

/-! ### Banner locator (`moving_groups` and `find_top_black_banner`,
lines 223–255)

A grayscale image is a list of rows of 8-bit intensities.  `row.mean() < 60`
is the exact comparison `sum < 60 * length` (row sums are far too small for
float64 rounding to cross the boundary; an empty row gives NaN, which
compares false, exactly as `sum 0 < 0` does).  `int(h*0.25)` is exactly
`h / 4` and, for every realistic height, `int(h*0.09)` is exactly
`9 * h / 100`. -/

def darkRow (row : List Nat) : Bool := decide (row.sum < 60 * row.length)

/-- The indices (within the top quarter) of the dark rows. -/
def darkIdxs (rows : List (List Nat)) : List Nat :=
  (((rows.take (rows.length / 4)).enum).filter fun p => darkRow p.2).map Prod.fst

def movingGroupsGo (start prev : Nat) : List Nat → List (Nat × Nat)
  | [] => [(start, prev)]
  | i :: rest =>
    if i = prev + 1 then movingGroupsGo start i rest
    else (start, prev) :: movingGroupsGo i i rest

/-- `moving_groups`: maximal runs of consecutive indices. -/
def movingGroups : List Nat → List (Nat × Nat)
  | [] => []
  | i :: rest => movingGroupsGo i i rest

/-- The `best` loop: among groups starting at row ≤ 5 spanning ≥ 10 rows,
the first longest (strictly longer replaces). -/
def bestRun (gs : List (Nat × Nat)) : Option (Nat × Nat) :=
  gs.foldl
    (fun best g =>
      if g.1 ≤ 5 ∧ 10 ≤ g.2 - g.1 + 1 then
        match best with
        | none => some g
        | some b => if b.2 - b.1 < g.2 - g.1 then some g else some b
      else best)
    none

/-- `find_top_black_banner`: the chosen run, or the top-9%(≥16 rows)
fallback, padded by two rows each side and clamped (`max(0, y0-2)` is
truncated subtraction on `Nat`). -/
def find_top_black_banner (rows : List (List Nat)) : Nat × Nat :=
  let h := rows.length
  let r := match bestRun (movingGroups (darkIdxs rows)) with
    | none => (0, max 16 (9 * h / 100))
    | some b => b
  (r.1 - 2, min h (r.2 + 2))

/-! ### Weights (lines 87–96, 281–295)

The Python weights are small decimal float constants that are only ever
added and compared; they are modelled as exact rationals. -/

/-- `ROI_WEIGHT.get(roi_tag, 0.0)`. -/
def roiWeight (tag : String) : ℚ :=
  if tag = "left70" then 3.2
  else if tag = "full" then 1.4
  else if tag = "mid60" then -1.0
  else if tag = "right60" then -1.5
  else 0

/-- `VARIANT_WEIGHT.get(var_tag, 0.0)`. -/
def variantWeight (tag : String) : ℚ :=
  if tag = "cubic|morph_inv" then 3.6
  else if tag = "cubic|blur_otsu_inv" then 2.4
  else if tag = "cubic|otsu_inv" then 1.2
  else if tag = "cubic|adapt_inv" then 0.8
  else if tag = "nearest|otsu_inv" then -1.0
  else if tag = "nearest|adapt_inv" then -1.2
  else 0

/-- `re.search(r':[0-9]{3}(?=[:\s]|$)', t)`: a colon, three digits, and a
delimiter-or-end lookahead (which consumes nothing). -/
def pLookDelim : Matcher := fun cs s => if triBoundary s then [(cs, s)] else []

def triRunPat : Matcher :=
  pCat [pChar (cIs 58), pChar isDig, pChar isDig, pChar isDig, pLookDelim]

/-- `re.search(r':[0-9]{2}\s*:\s*[0-9]{2}', t)`. -/
def nnnnPat : Matcher :=
  pCat [pChar (cIs 58), pChar isDig, pChar isDig, pStar isPySpace,
        pChar (cIs 58), pStar isPySpace, pChar isDig, pChar isDig]

/-- `rough_layout_bonus` (lines 281–291). -/
def rough_layout_bonus (raw : List Char) : ℚ :=
  let t := normalize_ocr raw
  let c := t.count ':'
  let b1 : ℚ := if 2 ≤ c ∧ c ≤ 3 then 0.4 else 0
  let b2 : ℚ := if (searchFrom triRunPat t).isSome then b1 - 0.6 else b1
  if (searchFrom nnnnPat t).isSome then b2 + 0.2 else b2

/-- `candidate_weight` (lines 293–295). -/
def candidate_weight (roiTag varTag : String) (raw : List Char) : ℚ :=
  roiWeight roiTag + variantWeight varTag + rough_layout_bonus raw

/-! ### Candidates and selection (lines 297–356)

A candidate is the dict built in `collect_candidates_from_roi`; the binarized
image stored under `"img"` is only used for debug output and is not part of
the model.  `"dt"` (the datetime object) and `"parts"` (the tuple) carry the
same six fields; datetime equality is field-wise equality. -/

structure Candidate where
  dt : Parts
  canon : String
  parts : Parts
  raw : List Char
  roi : String
  var : String
  w : ℚ
deriving DecidableEq, Repr

def PREFERRED_ROIS : List String := ["left70", "full"]

def PREFERRED_VARS : List String := ["cubic|morph_inv", "cubic|blur_otsu_inv"]

/-- `sorted(all_cands, key=lambda c: c["w"], reverse=True)` — a stable sort
descending by weight.  Python's sort is stable, and a stable sort by a total
preorder has a unique result, so the choice of stable algorithm is
irrelevant; `List.insertionSort` is stable. -/
def rankCands (cands : List Candidate) : List Candidate :=
  cands.insertionSort (fun a b => b.w ≤ a.w)

/-- `choose_elite_candidate` (lines 309–319).  `-1e9` is the sentinel used
when there is no runner-up. -/
def choose_elite_candidate (cands : List Candidate) (eliteMargin : ℚ) : Option Candidate :=
  match rankCands cands with
  | [] => none
  | top :: rest =>
    let nxt : ℚ := match rest with | [] => -(10 ^ 9) | c2 :: _ => c2.w
    if (top.roi ∈ PREFERRED_ROIS ∧ top.var ∈ PREFERRED_VARS) ∧ nxt + eliteMargin ≤ top.w
    then some top else none

/-- The positive-weight tally of `weighted_mode`: value `v`'s total is the
sum of the strictly positive weights paired with `v`. -/
def posTally (values : List Nat) (weights : List ℚ) (v : Nat) : ℚ :=
  (((values.zip weights).filter fun p => decide (0 < p.2) && decide (p.1 = v)).map
    Prod.snd).sum

/-- The tally's support: values that received some positive weight. -/
def tallyKeys (values : List Nat) (weights : List ℚ) : List Nat :=
  (((values.zip weights).filter fun p => decide (0 < p.2)).map Prod.fst).dedup

/-- `weighted_mode` (lines 300–307): `sorted(tally.items(),
key=lambda kv: (-kv[1], kv[0]))[0][0]` — greatest summed weight first, ties
by the smaller value. -/
def weighted_mode (values : List Nat) (weights : List ℚ) : Option Nat :=
  match (tallyKeys values weights).insertionSort (fun a b =>
      posTally values weights b < posTally values weights a ∨
        (posTally values weights a = posTally values weights b ∧ a ≤ b)) with
  | [] => none
  | k :: _ => some k

/-- The positive-weight candidates (`if c["w"] > 0` of lines 323–325). -/
def posCands (cands : List Candidate) : List Candidate :=
  cands.filter fun c => decide (0 < c.w)

/-- `by_key[canon]`: summed positive weight of one canonical string. -/
def canonTally (cands : List Candidate) (k : String) : ℚ :=
  (((posCands cands).filter fun c => c.canon = k).map (·.w)).sum

/-- `choose_by_weighted_whole_string` (lines 321–331). -/
def choose_by_weighted_whole_string (cands : List Candidate) :
    Option Parts × Option Candidate :=
  match (((posCands cands).map (·.canon)).dedup).insertionSort (fun a b =>
      canonTally cands b < canonTally cands a ∨
        (canonTally cands a = canonTally cands b ∧ a ≤ b)) with
  | [] => (none, none)
  | bestKey :: _ =>
    match (cands.filter fun c => c.canon = bestKey).insertionSort (fun a b =>
        b.w < a.w ∨ (a.w = b.w ∧ a.roi ≤ b.roi)) with
    | [] => (none, none)
    | rep :: _ => (some rep.dt, some rep)

/-- The list `fields = list(zip(*parts_list))`: the six per-field columns. -/
def colsOf (cands : List Candidate) : List (List Nat) :=
  [cands.map (·.parts.y), cands.map (·.parts.mo), cands.map (·.parts.d),
   cands.map (·.parts.h), cands.map (·.parts.mi), cands.map (·.parts.s)]

/-- One step of the `voted` loop: extend the collected winners with this
column's winner, or fail if the column has an empty tally. -/
def voteStep (ws : List ℚ) (col : List Nat) (acc : Option (List Nat)) :
    Option (List Nat) :=
  match weighted_mode col ws, acc with
  | some v, some vs => some (v :: vs)
  | _, _ => none

/-- The `voted` list of `choose_by_weighted_fields`: the per-field winners,
or `none` as soon as one field has an empty tally. -/
def votedOf (cands : List Candidate) : Option (List Nat) :=
  (colsOf cands).foldr (voteStep (cands.map (·.w))) (some [])

/-- One step of the representative scan of `choose_by_weighted_fields`:
a candidate scores its weight, less 0.5 if its timestamp differs from the
consensus, and replaces the best on strict improvement (`best` starts at
`-1e9`, `rep` at nothing). -/
def repStep (consensus : Parts) (acc : ℚ × Option Candidate) (c : Candidate) :
    ℚ × Option Candidate :=
  if acc.1 < (if c.dt = consensus then c.w else c.w - 0.5)
  then ((if c.dt = consensus then c.w else c.w - 0.5), some c) else acc

/-- `choose_by_weighted_fields` (lines 333–355). -/
def choose_by_weighted_fields (cands : List Candidate) :
    Option Parts × Option Candidate :=
  match votedOf cands with
  | some [y, mo, d, h, mi, s] =>
    match mkDatetime y mo d h mi s with
    | none => choose_by_weighted_whole_string cands
    | some consensus =>
      (some consensus, (cands.foldl (repStep consensus) (-(10 ^ 9 : ℚ), none)).2)
  | _ => (none, none)

/-! ### The per-image pipeline (`process_image`, lines 382–430)

Image decoding, the cv2 band/ROI/variant transforms and the Tesseract call
are external collaborators; following the spec's own boundary, the OCR side
is modelled as a black-box function from the (ROI tag, variant tag) pair to
the raw text it recognizes on that variant image, plus a flag saying whether
the image decoded at all. -/

/-- ROI order of the `rois` list (lines 393–398). -/
def ROI_TAGS : List String := ["full", "left70", "mid60", "right60"]

/-- Variant order generated by `variant_images` (lines 257–277): for the
cubic upscale otsu, blur-otsu, morph and adaptive variants, for the nearest
upscale otsu and adaptive. -/
def VAR_TAGS : List String :=
  ["cubic|otsu_inv", "cubic|blur_otsu_inv", "cubic|morph_inv", "cubic|adapt_inv",
   "nearest|otsu_inv", "nearest|adapt_inv"]

/-- `pytesseract.image_to_string(...).strip().replace("\n", " ")` (line 362). -/
def cleanRaw (s : List Char) : List Char :=
  (pyStrip s).map fun c => if c.toNat = 10 then ' ' else c

/-- `%Y-%m-%d %H:%M:%S` (`strftime`, zero padded), and also the verbatim
zero-padded rendering used by the round-trip property. -/
def renderTS (p : Parts) : List Char :=
  [dchr (p.y / 1000 % 10), dchr (p.y / 100 % 10), dchr (p.y / 10 % 10), dchr (p.y % 10)] ++
  '-' :: [dchr (p.mo / 10 % 10), dchr (p.mo % 10)] ++
  '-' :: [dchr (p.d / 10 % 10), dchr (p.d % 10)] ++
  ' ' :: [dchr (p.h / 10 % 10), dchr (p.h % 10)] ++
  ':' :: [dchr (p.mi / 10 % 10), dchr (p.mi % 10)] ++
  ':' :: [dchr (p.s / 10 % 10), dchr (p.s % 10)]

/-- One candidate dict of `collect_candidates_from_roi` (lines 359–380),
`none` when the raw text fails to parse. -/
def mkCandidate (roiTag varTag : String) (ocrText : List Char) : Option Candidate :=
  match parse_timestamp_flex (cleanRaw ocrText) with
  | none => none
  | some p =>
    some { dt := p, canon := String.mk (renderTS p), parts := p,
           raw := cleanRaw ocrText, roi := roiTag, var := varTag,
           w := candidate_weight roiTag varTag (cleanRaw ocrText) }

def collect_candidates_from_roi (ocr : String → String → List Char)
    (roiTag : String) : List Candidate :=
  VAR_TAGS.filterMap fun v => mkCandidate roiTag v (ocr roiTag v)

/-- The flat `all_cands` list of `process_image`. -/
def allCandidates (ocr : String → String → List Char) : List Candidate :=
  ROI_TAGS.flatMap (collect_candidates_from_roi ocr)

/-- `max(all_cands, key=lambda c: c["w"])`: the first candidate of maximal
weight. -/
def maxByW : List Candidate → Option Candidate
  | [] => none
  | c :: cs => some (cs.foldl (fun b x => if b.w < x.w then x else b) c)

/-- `process_image` (lines 382–430): `decoded` is whether `cv2.imread`
succeeded; debug output is ignored.  Returns the final (timestamp, raw)
pair. -/
def process_image (decoded : Bool) (ocr : String → String → List Char)
    (eliteMargin : ℚ) : Option Parts × List Char :=
  if !decoded then (none, [])
  else if (allCandidates ocr).isEmpty then (none, [])
  else
    match choose_elite_candidate (allCandidates ocr) eliteMargin with
    | some e => (some e.dt, e.raw)
    | none =>
      match choose_by_weighted_fields (allCandidates ocr) with
      | (some d, rep) => (some d, (rep.map (·.raw)).getD [])
      | (none, _) =>
        match maxByW (allCandidates ocr) with
        | some rep => (some rep.dt, rep.raw)
        | none => (none, [])

/-! ## Helper lemmas -/

/-- The head of a stable sort (for a transitive, total relation) is a
member of the list and relates to every member. -/
lemma insertionSort_head_rel {α : Type} {r : α → α → Prop} [DecidableRel r]
    (htr : ∀ a b c, r a b → r b c → r a c)
    (hto : ∀ a b, r a b ∨ r b a)
    {l : List α} {x : α} {xs : List α} (h : l.insertionSort r = x :: xs) :
    x ∈ l ∧ ∀ y ∈ l, y = x ∨ r x y := by
  haveI : IsTotal α r := ⟨hto⟩
  haveI : IsTrans α r := ⟨fun a b c => htr a b c⟩
  have hperm := List.perm_insertionSort r l
  have hsor := List.sorted_insertionSort r l
  rw [h] at hperm hsor
  have hx : x ∈ l := hperm.mem_iff.1 (List.mem_cons_self x xs)
  refine ⟨hx, fun y hy => ?_⟩
  have hmem : y ∈ x :: xs := hperm.mem_iff.2 hy
  rcases List.mem_cons.1 hmem with h1 | h1
  · exact Or.inl h1
  · exact Or.inr ((List.pairwise_cons.1 hsor).1 y h1)

lemma rankCands_head_max {cands : List Candidate} {top : Candidate}
    {rest : List Candidate} (h : rankCands cands = top :: rest) :
    top ∈ cands ∧ ∀ c ∈ cands, c.w ≤ top.w := by
  unfold rankCands at h
  have hmain := insertionSort_head_rel
    (r := fun a b : Candidate => b.w ≤ a.w)
    (fun a b c hab hbc => le_trans hbc hab)
    (fun a b => le_total b.w a.w)
    h
  refine ⟨hmain.1, fun c hc => ?_⟩
  rcases hmain.2 c hc with rfl | h1
  · exact le_refl _
  · exact h1

lemma foldl_maxw : ∀ (cs : List Candidate) (c : Candidate),
    (cs.foldl (fun b x => if b.w < x.w then x else b) c = c ∨
      cs.foldl (fun b x => if b.w < x.w then x else b) c ∈ cs) ∧
    c.w ≤ (cs.foldl (fun b x => if b.w < x.w then x else b) c).w ∧
    ∀ y ∈ cs, y.w ≤ (cs.foldl (fun b x => if b.w < x.w then x else b) c).w := by
  intro cs
  induction cs with
  | nil => intro c; exact ⟨Or.inl rfl, le_refl _, by simp⟩
  | cons x xs ih =>
    intro c
    simp only [List.foldl_cons]
    by_cases hcw : c.w < x.w
    · rw [if_pos hcw]
      obtain ⟨h1, h2, h3⟩ := ih x
      refine ⟨?_, le_trans (le_of_lt hcw) h2, ?_⟩
      · rcases h1 with h1 | h1
        · exact Or.inr (List.mem_cons.2 (Or.inl h1))
        · exact Or.inr (List.mem_cons.2 (Or.inr h1))
      · intro y hy
        rcases List.mem_cons.1 hy with rfl | hy2
        · exact h2
        · exact h3 y hy2
    · rw [if_neg hcw]
      obtain ⟨h1, h2, h3⟩ := ih c
      refine ⟨?_, h2, ?_⟩
      · rcases h1 with h1 | h1
        · exact Or.inl h1
        · exact Or.inr (List.mem_cons.2 (Or.inr h1))
      · intro y hy
        rcases List.mem_cons.1 hy with rfl | hy2
        · exact le_trans (le_of_not_lt hcw) h2
        · exact h3 y hy2

/-- `maxByW` returns a member whose weight is maximal. -/
lemma maxByW_spec {cands : List Candidate} {r : Candidate}
    (h : maxByW cands = some r) : r ∈ cands ∧ ∀ c ∈ cands, c.w ≤ r.w := by
  match cands, h with
  | c :: cs, h =>
    simp only [maxByW, Option.some.injEq] at h
    obtain ⟨h1, h2, h3⟩ := foldl_maxw cs c
    rw [h] at h1 h2 h3
    constructor
    · rcases h1 with h1 | h1
      · exact h1 ▸ List.mem_cons_self _ _
      · exact List.mem_cons.2 (Or.inr h1)
    · intro y hy
      rcases List.mem_cons.1 hy with rfl | hy2
      · exact h2
      · exact h3 y hy2

/-! ## Claim C8: triplet repair only performs valid replacements -/

/-- Output shapes reachable from an input by replacing some delimiter-bounded
3-digit runs (first digit '0' or '1', last two digits ≤ 59, followed by a
delimiter or the end) with their last two digits, leaving everything else
unchanged. -/
inductive RepairedShape : List Char → List Char → Prop
  | nil : RepairedShape [] []
  | keep (c : Char) {s t : List Char} :
      RepairedShape s t → RepairedShape (c :: s) (c :: t)
  | repl (c a b d : Char) {s t : List Char} :
      isDelim c = true → isDig a = true → isDig b = true → isDig d = true →
      triBoundary s = true → (a.toNat = 48 ∨ a.toNat = 49) → twoDigitVal b d ≤ 59 →
      RepairedShape s t → RepairedShape (c :: a :: b :: d :: s) (c :: b :: d :: t)

lemma repairAux_shape : ∀ (fuel : Nat) (s : List Char), s.length ≤ fuel →
    RepairedShape s (repairAux fuel s) := by
  intro fuel
  induction fuel with
  | zero =>
    intro s hs
    have : s = [] := List.length_eq_zero.1 (Nat.le_zero.1 hs)
    subst this
    exact RepairedShape.nil
  | succ n ih =>
    intro s hs
    match s with
    | [] => exact RepairedShape.nil
    | c :: rest =>
      match rest with
      | a :: b :: d :: rest2 =>
        simp only [repairAux]
        by_cases hc : isDelim c = true ∧ isDig a = true ∧ isDig b = true ∧
            isDig d = true ∧ triBoundary rest2 = true
        · rw [if_pos hc]
          have hlen : rest2.length ≤ n := by
            simp only [List.length_cons] at hs; omega
          unfold triFix
          by_cases hfix : (a.toNat = 48 ∨ a.toNat = 49) ∧ twoDigitVal b d ≤ 59
          · rw [if_pos hfix]
            exact RepairedShape.repl c a b d hc.1 hc.2.1 hc.2.2.1 hc.2.2.2.1
              hc.2.2.2.2 hfix.1 hfix.2 (ih rest2 hlen)
          · rw [if_neg hfix]
            exact RepairedShape.keep c (RepairedShape.keep a (RepairedShape.keep b
              (RepairedShape.keep d (ih rest2 hlen))))
        · rw [if_neg hc]
          have hlen : (a :: b :: d :: rest2).length ≤ n := by
            simp only [List.length_cons] at hs ⊢; omega
          exact RepairedShape.keep c (ih _ hlen)
      | [] => exact RepairedShape.keep c (ih [] (by simp))
      | [a] =>
        have : a :: ([] : List Char) = [a] := rfl
        exact RepairedShape.keep c (ih [a] (by simp only [List.length_cons] at hs ⊢; omega))
      | [a, b] =>
        exact RepairedShape.keep c (ih [a, b] (by simp only [List.length_cons] at hs ⊢; omega))

/-- C8: `repair_time_triplets` only ever replaces a delimiter-bounded 3-digit
run (first digit 0 or 1, last two digits a value ≤ 59) by its last two
digits, leaving everything outside such runs unchanged; it leaves ":299:"
unchanged and turns ":107:" into ":07:". -/
theorem repair_time_triplets_only_valid_repairs :
    (∀ s : List Char, RepairedShape s (repair_time_triplets s)) ∧
    repair_time_triplets ":299:".data = ":299:".data ∧
    repair_time_triplets ":107:".data = ":07:".data := by
  refine ⟨fun s => repairAux_shape s.length s (le_refl _), by decide, by decide⟩

/-! ## Claim C5: the no-banner fallback band -/

lemma bestRun_eq_none {gs : List (Nat × Nat)}
    (h : ∀ g ∈ gs, ¬(g.1 ≤ 5 ∧ 10 ≤ g.2 - g.1 + 1)) : bestRun gs = none := by
  unfold bestRun
  induction gs with
  | nil => rfl
  | cons g gs ih =>
    simp only [List.foldl_cons]
    rw [if_neg (h g (List.mem_cons_self _ _))]
    exact ih (fun g' hg' => h g' (List.mem_cons_of_mem _ hg'))

/-- C5 (amended): when no dark run qualifies, the returned band is the top
9% of rows (at least 16 rows) padded by two rows at the bottom, clamped to
the image height, and it is never empty. -/
theorem find_top_black_banner_fallback (rows : List (List Nat))
    (hh : 0 < rows.length)
    (hno : ∀ g ∈ movingGroups (darkIdxs rows), ¬(g.1 ≤ 5 ∧ 10 ≤ g.2 - g.1 + 1)) :
    find_top_black_banner rows =
      (0, min rows.length (max 16 (9 * rows.length / 100) + 2)) ∧
    0 < (find_top_black_banner rows).2 := by
  have hbest := bestRun_eq_none hno
  have heq : find_top_black_banner rows =
      (0, min rows.length (max 16 (9 * rows.length / 100) + 2)) := by
    unfold find_top_black_banner
    rw [hbest]
    rfl
  refine ⟨heq, ?_⟩
  rw [heq]
  simp only []
  omega

/-- Witness for C5: a 100-row all-bright image takes the fallback. -/
theorem find_top_black_banner_fallback_witness :
    find_top_black_banner (List.replicate 100 [200]) =
      (0, min (List.replicate 100 ([200] : List Nat)).length
        (max 16 (9 * (List.replicate 100 ([200] : List Nat)).length / 100) + 2)) ∧
    0 < (find_top_black_banner (List.replicate 100 [200])).2 :=
  find_top_black_banner_fallback (List.replicate 100 [200]) (by decide) (by decide)

/-- C5, the claim as stated is false: on a 100-row all-bright image the band
is not the unpadded top-9%-of-rows (minimum 16) range `(0, 16)` — the code
pads the fallback by two rows, returning `(0, 18)`. -/
theorem find_top_black_banner_cex :
    (∀ g ∈ movingGroups (darkIdxs (List.replicate 100 [200])),
      ¬(g.1 ≤ 5 ∧ 10 ≤ g.2 - g.1 + 1)) ∧
    find_top_black_banner (List.replicate 100 [200]) ≠
      (0, max 16 (9 * (List.replicate 100 ([200] : List Nat)).length / 100)) := by
  constructor
  · decide
  · decide

/-! ## Claims C10 and C3: the elite shortcut -/

lemma rankCands_singleton (c : Candidate) : rankCands [c] = [c] :=
  List.perm_singleton.1 (List.perm_insertionSort _ [c])

/-- C10 (amended): a lone candidate from the preferred (ROI, variant) sets is
returned by the elite shortcut whatever its weight, for every margin not
exceeding its weight plus the `-1e9` sentinel that stands in for the absent
runner-up (so for every realistic margin; an astronomical margin above
`w + 1e9` defeats the shortcut). -/
lemma rankCands_pair_sorted {a b : Candidate} (h : b.w ≤ a.w) :
    rankCands [a, b] = [a, b] := by
  unfold rankCands
  simp [List.insertionSort, List.orderedInsert, if_pos h]

lemma choose_elite_pair_eq {a b : Candidate} (h : b.w ≤ a.w) (m : ℚ) :
    choose_elite_candidate [a, b] m =
      if (a.roi ∈ PREFERRED_ROIS ∧ a.var ∈ PREFERRED_VARS) ∧ b.w + m ≤ a.w
      then some a else none := by
  unfold choose_elite_candidate
  rw [rankCands_pair_sorted h]

lemma choose_elite_singleton_eq (c : Candidate) (m : ℚ) :
    choose_elite_candidate [c] m =
      if (c.roi ∈ PREFERRED_ROIS ∧ c.var ∈ PREFERRED_VARS) ∧ -(10 ^ 9 : ℚ) + m ≤ c.w
      then some c else none := by
  unfold choose_elite_candidate
  rw [rankCands_singleton]

theorem choose_elite_singleton_preferred (c : Candidate) (m : ℚ)
    (hroi : c.roi ∈ PREFERRED_ROIS) (hvar : c.var ∈ PREFERRED_VARS)
    (hm : m ≤ c.w + 10 ^ 9) :
    choose_elite_candidate [c] m = some c := by
  rw [choose_elite_singleton_eq]
  exact if_pos ⟨⟨hroi, hvar⟩, by linarith⟩

/-- C10, the claim as stated is false: "regardless of the configured margin"
fails for a margin larger than the candidate's weight plus `1e9` — here a
preferred lone candidate of weight 0 with margin `2e9` is not returned. -/
theorem choose_elite_singleton_margin_cex :
    (Candidate.roi ⟨⟨2024, 1, 1, 0, 0, 0⟩, "2024-01-01 00:00:00",
        ⟨2024, 1, 1, 0, 0, 0⟩, [], "left70", "cubic|morph_inv", 0⟩ ∈ PREFERRED_ROIS ∧
      Candidate.var ⟨⟨2024, 1, 1, 0, 0, 0⟩, "2024-01-01 00:00:00",
        ⟨2024, 1, 1, 0, 0, 0⟩, [], "left70", "cubic|morph_inv", 0⟩ ∈ PREFERRED_VARS) ∧
    choose_elite_candidate
      [⟨⟨2024, 1, 1, 0, 0, 0⟩, "2024-01-01 00:00:00", ⟨2024, 1, 1, 0, 0, 0⟩,
        [], "left70", "cubic|morph_inv", 0⟩] (2 * 10 ^ 9) = none := by
  refine ⟨⟨by decide, by decide⟩, ?_⟩
  rw [choose_elite_singleton_eq]
  apply if_neg
  intro hcon
  have h2 := hcon.2
  norm_num at h2

/-- Witness for C10: a preferred candidate of negative weight with the
default margin 0.8 is returned by the shortcut. -/
theorem choose_elite_singleton_preferred_witness :
    choose_elite_candidate
      [⟨⟨2024, 8, 1, 6, 31, 27⟩, "2024-08-01 06:31:27", ⟨2024, 8, 1, 6, 31, 27⟩,
        [], "left70", "cubic|blur_otsu_inv", -5⟩] (4 / 5) =
      some ⟨⟨2024, 8, 1, 6, 31, 27⟩, "2024-08-01 06:31:27", ⟨2024, 8, 1, 6, 31, 27⟩,
        [], "left70", "cubic|blur_otsu_inv", -5⟩ :=
  choose_elite_singleton_preferred _ _ (by decide) (by decide) (by norm_num)

/-- C3: the elite shortcut returns a candidate only when it is weight-maximal,
its ROI and variant are in the preferred sets, and (when a runner-up exists)
its weight leads the runner-up by at least the margin; and whenever the
unique top-weight candidate is outside the preferred sets, it returns `none`
no matter the margin. -/
theorem choose_elite_candidate_spec :
    (∀ (cands : List Candidate) (m : ℚ) (c : Candidate),
      choose_elite_candidate cands m = some c →
      c ∈ cands ∧ (∀ x ∈ cands, x.w ≤ c.w) ∧
      c.roi ∈ PREFERRED_ROIS ∧ c.var ∈ PREFERRED_VARS ∧
      (∀ (c2 : Candidate) (cs : List Candidate),
        rankCands cands = c :: c2 :: cs → c2.w + m ≤ c.w)) ∧
    (∀ (cands : List Candidate) (m : ℚ) (c0 : Candidate),
      c0 ∈ cands → (∀ x ∈ cands, x.w ≤ c0.w) →
      (∀ x ∈ cands, x.w = c0.w → x = c0) →
      (c0.roi ∉ PREFERRED_ROIS ∨ c0.var ∉ PREFERRED_VARS) →
      choose_elite_candidate cands m = none) := by
  have hform : ∀ (cands : List Candidate) (m : ℚ) (top : Candidate)
      (rest : List Candidate), rankCands cands = top :: rest →
      choose_elite_candidate cands m =
        if (top.roi ∈ PREFERRED_ROIS ∧ top.var ∈ PREFERRED_VARS) ∧
            (match rest with | [] => -(10 ^ 9 : ℚ) | c2 :: _ => c2.w) + m ≤ top.w
        then some top else none := by
    intro cands m top rest hrk
    unfold choose_elite_candidate
    rw [hrk]
  constructor
  · intro cands m c h
    rcases hrk : rankCands cands with _ | ⟨top, rest⟩
    · unfold choose_elite_candidate at h
      rw [hrk] at h
      exact absurd h (by simp)
    · rw [hform cands m top rest hrk] at h
      split at h
      next hcond =>
        have htop : top = c := by injection h
        subst htop
        obtain ⟨hmem, hmax⟩ := rankCands_head_max hrk
        refine ⟨hmem, hmax, hcond.1.1, hcond.1.2, ?_⟩
        intro c2 cs hrk2
        have h1 : rest = c2 :: cs := (List.cons.inj hrk2).2
        have h4 := hcond.2
        rw [h1] at h4
        simpa using h4
      next hcond =>
        exact absurd h (by simp)
  · intro cands m c0 hmem hmax huniq hout
    rcases hrk : rankCands cands with _ | ⟨top, rest⟩
    · unfold choose_elite_candidate
      rw [hrk]
    · obtain ⟨htopmem, htopmax⟩ := rankCands_head_max hrk
      have htop : top = c0 :=
        huniq top htopmem (le_antisymm (hmax top htopmem) (htopmax c0 hmem))
      rw [hform cands m top rest hrk]
      apply if_neg
      intro hcon
      rcases hout with h1 | h1
      · exact h1 (htop ▸ hcon.1.1)
      · exact h1 (htop ▸ hcon.1.2)

/-- Witness for C3: a two-candidate list where the preferred top fires (so
the first part's conclusions hold at it), and a list whose unique top
candidate has a non-preferred variant, on which the shortcut declines even
with margin 0. -/
theorem choose_elite_candidate_spec_witness :
    (Candidate.mk ⟨2024, 8, 1, 6, 31, 27⟩ "2024-08-01 06:31:27"
        ⟨2024, 8, 1, 6, 31, 27⟩ [] "left70" "cubic|morph_inv" 5 ∈
      [Candidate.mk ⟨2024, 8, 1, 6, 31, 27⟩ "2024-08-01 06:31:27"
        ⟨2024, 8, 1, 6, 31, 27⟩ [] "left70" "cubic|morph_inv" 5,
       Candidate.mk ⟨2024, 8, 1, 6, 31, 28⟩ "2024-08-01 06:31:28"
        ⟨2024, 8, 1, 6, 31, 28⟩ [] "full" "cubic|otsu_inv" 1]) ∧
    choose_elite_candidate
      [Candidate.mk ⟨2024, 8, 1, 6, 31, 27⟩ "2024-08-01 06:31:27"
        ⟨2024, 8, 1, 6, 31, 27⟩ [] "right60" "cubic|otsu_inv" 9] 0 = none := by
  constructor
  · refine (choose_elite_candidate_spec.1
      [Candidate.mk ⟨2024, 8, 1, 6, 31, 27⟩ "2024-08-01 06:31:27"
        ⟨2024, 8, 1, 6, 31, 27⟩ [] "left70" "cubic|morph_inv" 5,
       Candidate.mk ⟨2024, 8, 1, 6, 31, 28⟩ "2024-08-01 06:31:28"
        ⟨2024, 8, 1, 6, 31, 28⟩ [] "full" "cubic|otsu_inv" 1]
      (4 / 5) _ ?_).1
    rw [choose_elite_pair_eq (by norm_num)]
    exact if_pos ⟨⟨by decide, by decide⟩, by norm_num⟩
  · refine choose_elite_candidate_spec.2
      [Candidate.mk ⟨2024, 8, 1, 6, 31, 27⟩ "2024-08-01 06:31:27"
        ⟨2024, 8, 1, 6, 31, 27⟩ [] "right60" "cubic|otsu_inv" 9] 0 _
      (List.mem_cons_self _ _) ?_ ?_ (Or.inr (by decide))
    · intro x hx
      rcases List.mem_cons.1 hx with rfl | hx2
      · exact le_refl _
      · cases hx2
    · intro x hx hw
      rcases List.mem_cons.1 hx with rfl | hx2
      · rfl
      · cases hx2

/-! ## Claim C4: weighted per-field voting -/

lemma mem_tallyKeys_iff {values : List Nat} {weights : List ℚ} {v : Nat} :
    v ∈ tallyKeys values weights ↔
    ∃ p ∈ values.zip weights, 0 < p.2 ∧ p.1 = v := by
  unfold tallyKeys
  simp only [List.mem_dedup, List.mem_map, List.mem_filter, decide_eq_true_eq]
  constructor
  · rintro ⟨p, ⟨hp, hw⟩, hv⟩
    exact ⟨p, hp, hw, hv⟩
  · rintro ⟨p, hp, hw, hv⟩
    exact ⟨p, ⟨hp, hw⟩, hv⟩

lemma posTally_eq_zero {values : List Nat} {weights : List ℚ} {v : Nat}
    (h : v ∉ tallyKeys values weights) : posTally values weights v = 0 := by
  unfold posTally
  have hnil : (values.zip weights).filter
      (fun p => decide (0 < p.2) && decide (p.1 = v)) = [] := by
    rw [List.filter_eq_nil]
    intro p hp
    simp only [Bool.and_eq_true, decide_eq_true_eq, not_and]
    intro hw hv
    exact h (mem_tallyKeys_iff.2 ⟨p, hp, hw, hv⟩)
  rw [hnil]
  rfl

lemma posTally_pos_of_mem {values : List Nat} {weights : List ℚ} {v : Nat}
    (h : v ∈ tallyKeys values weights) : 0 < posTally values weights v := by
  obtain ⟨p, hp, hw, hv⟩ := mem_tallyKeys_iff.1 h
  unfold posTally
  apply List.sum_pos
  · intro x hx
    obtain ⟨q, hq, hqx⟩ := List.mem_map.1 hx
    have := (List.mem_filter.1 hq).2
    simp only [Bool.and_eq_true, decide_eq_true_eq] at this
    exact hqx ▸ this.1
  · have hmem : p ∈ (values.zip weights).filter
        (fun q => decide (0 < q.2) && decide (q.1 = v)) := by
      rw [List.mem_filter]
      refine ⟨hp, ?_⟩
      simp [hw, hv]
    intro hcon
    rw [List.map_eq_nil] at hcon
    rw [hcon] at hmem
    cases hmem

lemma weighted_mode_eq_head (values : List Nat) (weights : List ℚ) :
    weighted_mode values weights = ((tallyKeys values weights).insertionSort
      (fun a b => posTally values weights b < posTally values weights a ∨
        (posTally values weights a = posTally values weights b ∧ a ≤ b))).head? := by
  unfold weighted_mode
  cases (tallyKeys values weights).insertionSort
      (fun a b => posTally values weights b < posTally values weights a ∨
        (posTally values weights a = posTally values weights b ∧ a ≤ b)) with
  | nil => rfl
  | cons k ks => rfl

/-- All the per-field properties of one `weighted_mode` call. -/
lemma weighted_mode_spec {values : List Nat} {weights : List ℚ} {v : Nat}
    (h : weighted_mode values weights = some v) :
    v ∈ values ∧ 0 < posTally values weights v ∧
    (∀ u, posTally values weights u ≤ posTally values weights v) ∧
    (∀ u, posTally values weights u = posTally values weights v → v ≤ u) := by
  rw [weighted_mode_eq_head] at h
  rcases hs : (tallyKeys values weights).insertionSort
      (fun a b => posTally values weights b < posTally values weights a ∨
        (posTally values weights a = posTally values weights b ∧ a ≤ b))
    with _ | ⟨k, ks⟩
  · rw [hs] at h; cases h
  · rw [hs] at h
    have hk : k = v := by injection h
    subst hk
    have hrel := insertionSort_head_rel
      (r := fun a b => posTally values weights b < posTally values weights a ∨
        (posTally values weights a = posTally values weights b ∧ a ≤ b))
      (fun a b c hab hbc => by
        rcases hab with h1 | ⟨h1, h2⟩ <;> rcases hbc with h3 | ⟨h3, h4⟩
        · exact Or.inl (lt_trans h3 h1)
        · exact Or.inl (h3 ▸ h1)
        · exact Or.inl (h1 ▸ h3)
        · exact Or.inr ⟨h1.trans h3, le_trans h2 h4⟩)
      (fun a b => by
        rcases lt_trichotomy (posTally values weights a) (posTally values weights b)
          with h1 | h1 | h1
        · exact Or.inr (Or.inl h1)
        · rcases le_total a b with h2 | h2
          · exact Or.inl (Or.inr ⟨h1, h2⟩)
          · exact Or.inr (Or.inr ⟨h1.symm, h2⟩)
        · exact Or.inl (Or.inl h1))
      hs
    have hkmem : k ∈ tallyKeys values weights := hrel.1
    have hvval : k ∈ values := by
      obtain ⟨p, hp, hw, hv⟩ := mem_tallyKeys_iff.1 hkmem
      have := List.mem_zip (show (p.1, p.2) ∈ values.zip weights by simpa using hp)
      exact hv ▸ this.1
    have hpos := posTally_pos_of_mem hkmem
    refine ⟨hvval, hpos, ?_, ?_⟩
    · intro u
      by_cases hu : u ∈ tallyKeys values weights
      · rcases hrel.2 u hu with rfl | hru
        · exact le_refl _
        · rcases hru with h1 | ⟨h1, h2⟩
          · exact le_of_lt h1
          · exact le_of_eq h1.symm
      · rw [posTally_eq_zero hu]
        exact le_of_lt hpos
    · intro u hu_eq
      by_cases hu : u ∈ tallyKeys values weights
      · rcases hrel.2 u hu with rfl | hru
        · exact le_refl _
        · rcases hru with h1 | ⟨h1, h2⟩
          · exact absurd hu_eq (ne_of_lt h1)
          · exact h2
      · rw [posTally_eq_zero hu] at hu_eq
        exact absurd hu_eq.symm (ne_of_gt hpos)

lemma votedAux_spec : ∀ (cols : List (List Nat)) (ws : List ℚ) (vs : List Nat),
    cols.foldr (voteStep ws) (some []) = some vs →
    List.Forall₂ (fun col v => weighted_mode col ws = some v) cols vs := by
  intro cols
  induction cols with
  | nil =>
    intro ws vs h
    simp only [List.foldr_nil, Option.some.injEq] at h
    subst h
    exact List.Forall₂.nil
  | cons col cols ih =>
    intro ws vs h
    rw [List.foldr_cons] at h
    rcases hacc : cols.foldr (voteStep ws) (some []) with _ | l
    · rw [hacc] at h
      unfold voteStep at h
      rcases hmode : weighted_mode col ws with _ | v <;> rw [hmode] at h <;>
        exact Option.noConfusion h
    · rw [hacc] at h
      unfold voteStep at h
      rcases hmode : weighted_mode col ws with _ | v <;> rw [hmode] at h
      · exact Option.noConfusion h
      · have hvs : v :: l = vs := by injection h
        subst hvs
        exact List.Forall₂.cons hmode (ih ws l hacc)

/-- C4: in per-field weighted voting each field winner has strictly positive
positively-filtered tally, maximizes that tally over all values, and wins
exact ties as the numerically smaller value.  (`posTally` sums exactly the
strictly positive weights attached to a value, so zero- or negative-weight
candidates contribute nothing.) -/
theorem weighted_field_voting_spec (cands : List Candidate) (vs : List Nat)
    (h : votedOf cands = some vs) :
    List.Forall₂ (fun col v =>
      v ∈ col ∧ 0 < posTally col (cands.map (·.w)) v ∧
      (∀ u, posTally col (cands.map (·.w)) u ≤ posTally col (cands.map (·.w)) v) ∧
      (∀ u, posTally col (cands.map (·.w)) u = posTally col (cands.map (·.w)) v →
        v ≤ u))
      (colsOf cands) vs := by
  have h3 : (colsOf cands).foldr (voteStep (cands.map (·.w))) (some []) = some vs := h
  have h2 := votedAux_spec _ _ _ h3
  clear h h3
  generalize hcols : colsOf cands = cols at h2 ⊢
  clear hcols
  induction h2 with
  | nil => exact List.Forall₂.nil
  | cons hr _ ih => exact List.Forall₂.cons (weighted_mode_spec hr) ih

/-- Witness for C4: a single positive-weight candidate; every field's winner
is that candidate's field value. -/
theorem weighted_field_voting_spec_witness :
    List.Forall₂ (fun col v =>
      v ∈ col ∧
      0 < posTally col ([Candidate.mk ⟨2024, 8, 1, 6, 31, 27⟩ "2024-08-01 06:31:27"
          ⟨2024, 8, 1, 6, 31, 27⟩ [] "left70" "cubic|morph_inv" 1].map (·.w)) v ∧
      (∀ u, posTally col ([Candidate.mk ⟨2024, 8, 1, 6, 31, 27⟩ "2024-08-01 06:31:27"
          ⟨2024, 8, 1, 6, 31, 27⟩ [] "left70" "cubic|morph_inv" 1].map (·.w)) u ≤
        posTally col ([Candidate.mk ⟨2024, 8, 1, 6, 31, 27⟩ "2024-08-01 06:31:27"
          ⟨2024, 8, 1, 6, 31, 27⟩ [] "left70" "cubic|morph_inv" 1].map (·.w)) v) ∧
      (∀ u, posTally col ([Candidate.mk ⟨2024, 8, 1, 6, 31, 27⟩ "2024-08-01 06:31:27"
          ⟨2024, 8, 1, 6, 31, 27⟩ [] "left70" "cubic|morph_inv" 1].map (·.w)) u =
        posTally col ([Candidate.mk ⟨2024, 8, 1, 6, 31, 27⟩ "2024-08-01 06:31:27"
          ⟨2024, 8, 1, 6, 31, 27⟩ [] "left70" "cubic|morph_inv" 1].map (·.w)) v →
        v ≤ u))
      (colsOf [Candidate.mk ⟨2024, 8, 1, 6, 31, 27⟩ "2024-08-01 06:31:27"
        ⟨2024, 8, 1, 6, 31, 27⟩ [] "left70" "cubic|morph_inv" 1])
      [2024, 8, 1, 6, 31, 27] :=
  weighted_field_voting_spec
    [Candidate.mk ⟨2024, 8, 1, 6, 31, 27⟩ "2024-08-01 06:31:27"
      ⟨2024, 8, 1, 6, 31, 27⟩ [] "left70" "cubic|morph_inv" 1]
    [2024, 8, 1, 6, 31, 27] (by decide)

/-! ## Claims C7 and C6: degraded selection paths of `process_image` -/

lemma choose_elite_eq_form {cands : List Candidate} {top : Candidate}
    {rest : List Candidate} (hrk : rankCands cands = top :: rest) (m : ℚ) :
    choose_elite_candidate cands m =
      if (top.roi ∈ PREFERRED_ROIS ∧ top.var ∈ PREFERRED_VARS) ∧
          ((rest.head?.map (·.w)).getD (-(10 ^ 9 : ℚ))) + m ≤ top.w
      then some top else none := by
  unfold choose_elite_candidate
  simp only [hrk]
  cases rest <;> rfl

lemma choose_elite_some_mem_max {cands : List Candidate} {m : ℚ} {c : Candidate}
    (h : choose_elite_candidate cands m = some c) :
    c ∈ cands ∧ ∀ x ∈ cands, x.w ≤ c.w := by
  rcases hrk : rankCands cands with _ | ⟨top, rest⟩
  · unfold choose_elite_candidate at h
    rw [hrk] at h
    exact absurd h (by simp)
  · rw [choose_elite_eq_form hrk m] at h
    split at h
    next =>
      have htop : top = c := by injection h
      exact htop ▸ rankCands_head_max hrk
    next => exact absurd h (by simp)

lemma allCandidates_eq_nil {ocr : String → String → List Char}
    (h : ∀ roi ∈ ROI_TAGS, ∀ v ∈ VAR_TAGS,
      parse_timestamp_flex (cleanRaw (ocr roi v)) = none) :
    allCandidates ocr = [] := by
  unfold allCandidates
  rw [List.flatMap_eq_nil_iff]
  intro roi hroi
  unfold collect_candidates_from_roi
  rw [List.filterMap_eq_nil_iff]
  intro v hv
  unfold mkCandidate
  rw [h roi hroi v hv]

/-- C7: a failed decode, or zero successfully parsed candidates across all
(ROI, variant) pairs, makes `process_image` return no timestamp and an
empty representative text (the model is a total function, so no fault is
raised). -/
theorem process_image_unrecognized :
    (∀ (ocr : String → String → List Char) (m : ℚ),
      process_image false ocr m = (none, [])) ∧
    (∀ (ocr : String → String → List Char) (m : ℚ),
      (∀ roi ∈ ROI_TAGS, ∀ v ∈ VAR_TAGS,
        parse_timestamp_flex (cleanRaw (ocr roi v)) = none) →
      process_image true ocr m = (none, [])) := by
  constructor
  · intro ocr m
    rfl
  · intro ocr m h
    have hall := allCandidates_eq_nil h
    unfold process_image
    rw [hall]
    rfl

/-- Witness for C7: the all-empty OCR oracle. -/
theorem process_image_unrecognized_witness :
    process_image false (fun _ _ => []) 0 = (none, []) ∧
    process_image true (fun _ _ => []) 0 = (none, []) :=
  ⟨process_image_unrecognized.1 (fun _ _ => []) 0,
   process_image_unrecognized.2 (fun _ _ => []) 0 (fun roi _ v _ => by rfl)⟩

lemma tallyKeys_eq_nil_of_nonpos {values : List Nat} {weights : List ℚ}
    (h : ∀ w ∈ weights, w ≤ 0) : tallyKeys values weights = [] := by
  unfold tallyKeys
  have hfil : (values.zip weights).filter (fun p => decide (0 < p.2)) = [] := by
    rw [List.filter_eq_nil]
    intro p hp
    simp only [decide_eq_true_eq]
    exact not_lt_of_le (h p.2 (List.of_mem_zip (by simpa using hp)).2)
  rw [hfil]
  rfl

lemma weighted_mode_eq_none_of_nonpos {values : List Nat} {weights : List ℚ}
    (h : ∀ w ∈ weights, w ≤ 0) : weighted_mode values weights = none := by
  rw [weighted_mode_eq_head, tallyKeys_eq_nil_of_nonpos h]
  rfl

lemma votedOf_eq_none_of_nonpos {cands : List Candidate}
    (h : ∀ c ∈ cands, c.w ≤ 0) : votedOf cands = none := by
  have hws : ∀ w ∈ cands.map (·.w), w ≤ 0 := by
    intro w hw
    obtain ⟨c, hc, hcw⟩ := List.mem_map.1 hw
    exact hcw ▸ h c hc
  unfold votedOf colsOf
  simp only [List.foldr_cons]
  unfold voteStep
  rw [weighted_mode_eq_none_of_nonpos hws]

/-- C6: with at least one parsed candidate but every weight zero or
negative, selection still returns a candidate of maximal weight together
with its timestamp and raw text — never the unrecognized result. -/
theorem absolute_fallback_spec (ocr : String → String → List Char) (m : ℚ)
    (hne : allCandidates ocr ≠ [])
    (hw : ∀ c ∈ allCandidates ocr, c.w ≤ 0) :
    ∃ c ∈ allCandidates ocr, (∀ x ∈ allCandidates ocr, x.w ≤ c.w) ∧
      process_image true ocr m = (some c.dt, c.raw) := by
  have hempty : (allCandidates ocr).isEmpty = false := by
    rcases hcc : allCandidates ocr with _ | ⟨c, cs⟩
    · exact absurd hcc hne
    · rfl
  rcases helite : choose_elite_candidate (allCandidates ocr) m with _ | e
  · -- voting path degenerates, absolute fallback
    have hvoted := votedOf_eq_none_of_nonpos hw
    have hfields : choose_by_weighted_fields (allCandidates ocr) = (none, none) := by
      unfold choose_by_weighted_fields
      rw [hvoted]
    rcases hmax : maxByW (allCandidates ocr) with _ | r
    · rcases hcc : allCandidates ocr with _ | ⟨c, cs⟩
      · exact absurd hcc hne
      · rw [hcc] at hmax
        exact absurd hmax (by simp [maxByW])
    · obtain ⟨hrmem, hrmax⟩ := maxByW_spec hmax
      refine ⟨r, hrmem, hrmax, ?_⟩
      unfold process_image
      rw [hempty, helite, hfields, hmax]
      rfl
  · obtain ⟨hemem, hemax⟩ := choose_elite_some_mem_max helite
    refine ⟨e, hemem, hemax, ?_⟩
    unfold process_image
    rw [hempty, helite]
    rfl

/-- The OCR oracle of the C6 witness: one readable variant in a penalized
(ROI, variant) pair, garbage everywhere else. -/
def negOracle (roi v : String) : List Char :=
  if roi = "right60" ∧ v = "nearest|adapt_inv" then "2024-08-01 06:31:27".data else []

set_option maxHeartbeats 4000000 in
lemma negOracle_cands :
    allCandidates negOracle =
      [⟨⟨2024, 8, 1, 6, 31, 27⟩, "2024-08-01 06:31:27", ⟨2024, 8, 1, 6, 31, 27⟩,
        "2024-08-01 06:31:27".data, "right60", "nearest|adapt_inv",
        candidate_weight "right60" "nearest|adapt_inv" "2024-08-01 06:31:27".data⟩] := by
  rfl

lemma clean_ts_bonus : rough_layout_bonus "2024-08-01 06:31:27".data = 0.4 + 0.2 := by
  have hnorm : normalize_ocr "2024-08-01 06:31:27".data = "2024-08-01 06:31:27".data := by
    decide
  have hcount : List.count ':' "2024-08-01 06:31:27".data = 2 := by decide
  have htri : searchFrom triRunPat "2024-08-01 06:31:27".data = none := by decide
  have hnnnn : (searchFrom nnnnPat "2024-08-01 06:31:27".data).isSome = true := by decide
  simp only [rough_layout_bonus, hnorm, hcount, htri, hnnnn]
  norm_num

lemma negOracle_weight :
    candidate_weight "right60" "nearest|adapt_inv" "2024-08-01 06:31:27".data = -21/10 := by
  unfold candidate_weight
  rw [clean_ts_bonus]
  have hr : roiWeight "right60" = -1.5 := rfl
  have hv : variantWeight "nearest|adapt_inv" = -1.2 := rfl
  rw [hr, hv]
  norm_num

/-- Witness for C6: the single candidate has weight `-2.1 ≤ 0`, and
`process_image` still returns it with its timestamp. -/
theorem absolute_fallback_spec_witness :
    ∃ c ∈ allCandidates negOracle, (∀ x ∈ allCandidates negOracle, x.w ≤ c.w) ∧
      process_image true negOracle (4 / 5) = (some c.dt, c.raw) := by
  refine absolute_fallback_spec negOracle (4 / 5) ?_ ?_
  · rw [negOracle_cands]
    simp
  · rw [negOracle_cands]
    intro c hc
    rw [List.mem_singleton] at hc
    subst hc
    show candidate_weight "right60" "nearest|adapt_inv" "2024-08-01 06:31:27".data ≤ 0
    rw [negOracle_weight]
    norm_num

/-! ## Claim C1: provenance of the final timestamp -/

lemma choose_by_weighted_whole_string_spec {cands : List Candidate} {d : Parts}
    {rep : Option Candidate}
    (h : choose_by_weighted_whole_string cands = (some d, rep)) :
    ∃ c ∈ cands, c.dt = d := by
  unfold choose_by_weighted_whole_string at h
  split at h
  · exact absurd (congrArg Prod.fst h) (by simp)
  · split at h
    · exact absurd (congrArg Prod.fst h) (by simp)
    · next rep0 rest heq =>
      have hd : rep0.dt = d := by
        have := congrArg Prod.fst h
        simpa using this
      have hmem : rep0 ∈ cands := by
        have h1 : rep0 ∈ rep0 :: rest := List.mem_cons_self _ _
        rw [← heq] at h1
        have h2 := (List.perm_insertionSort _ _).mem_iff.1 h1
        exact (List.mem_filter.1 h2).1
      exact ⟨rep0, hmem, hd⟩

lemma choose_by_weighted_fields_spec {cands : List Candidate} {d : Parts}
    {rep : Option Candidate}
    (h : choose_by_weighted_fields cands = (some d, rep)) :
    (∃ c ∈ cands, c.dt = d) ∨
    votedOf cands = some [d.y, d.mo, d.d, d.h, d.mi, d.s] := by
  unfold choose_by_weighted_fields at h
  split at h
  · next y mo dd hh mi ss heq =>
    split at h
    · next hmk =>
      exact Or.inl (choose_by_weighted_whole_string_spec h)
    · next consensus hmk =>
      have hcons : consensus = ⟨y, mo, dd, hh, mi, ss⟩ := by
        unfold mkDatetime at hmk
        split at hmk
        · exact (Option.some.inj hmk).symm
        · exact absurd hmk (by simp)
      have hd : consensus = d := by
        have := congrArg Prod.fst h
        simpa using this
      right
      rw [← hd, hcons]
      exact heq
  · exact absurd (congrArg Prod.fst h) (by simp)

lemma weighted_mode_mem {values : List Nat} {weights : List ℚ} {v : Nat}
    (h : weighted_mode values weights = some v) : v ∈ values :=
  (weighted_mode_spec h).1

/-- C1 (amended): the final timestamp, when non-empty, is either the parsed
timestamp of some candidate (elite, whole-string and absolute-fallback
paths), or the per-field consensus, each of whose six fields is the
corresponding field of some candidate — the consensus as a whole may match
no candidate. -/
theorem process_image_timestamp_provenance
    (ocr : String → String → List Char) (m : ℚ) (d : Parts) (raw : List Char)
    (h : process_image true ocr m = (some d, raw)) :
    (∃ c ∈ allCandidates ocr, c.dt = d) ∨
    ((∃ c ∈ allCandidates ocr, c.parts.y = d.y) ∧
     (∃ c ∈ allCandidates ocr, c.parts.mo = d.mo) ∧
     (∃ c ∈ allCandidates ocr, c.parts.d = d.d) ∧
     (∃ c ∈ allCandidates ocr, c.parts.h = d.h) ∧
     (∃ c ∈ allCandidates ocr, c.parts.mi = d.mi) ∧
     (∃ c ∈ allCandidates ocr, c.parts.s = d.s)) := by
  unfold process_image at h
  simp only [Bool.not_true] at h
  rw [if_neg (by simp)] at h
  split at h
  · exact absurd h (by simp)
  · split at h
    · -- elite path
      next e helite =>
      obtain ⟨hmem, _⟩ := choose_elite_some_mem_max helite
      have hd : e.dt = d := by
        have := congrArg Prod.fst h
        simpa using this
      exact Or.inl ⟨e, hmem, hd⟩
    · split at h
      · -- weighted-fields (or whole-string) path
        next d0 rep heq =>
        have hd : d0 = d := by
          have := congrArg Prod.fst h
          simpa using this
        subst hd
        rcases choose_by_weighted_fields_spec heq with h1 | h1
        · exact Or.inl h1
        · right
          have hfa := weighted_field_voting_spec _ _ h1
          unfold colsOf at hfa
          rcases hfa with _ | ⟨hy, hfa⟩
          rcases hfa with _ | ⟨hmo, hfa⟩
          rcases hfa with _ | ⟨hdd, hfa⟩
          rcases hfa with _ | ⟨hhh, hfa⟩
          rcases hfa with _ | ⟨hmi, hfa⟩
          rcases hfa with _ | ⟨hss, _⟩
          refine ⟨?_, ?_, ?_, ?_, ?_, ?_⟩
          · obtain ⟨c, hc, hcv⟩ := List.mem_map.1 hy.1
            exact ⟨c, hc, hcv⟩
          · obtain ⟨c, hc, hcv⟩ := List.mem_map.1 hmo.1
            exact ⟨c, hc, hcv⟩
          · obtain ⟨c, hc, hcv⟩ := List.mem_map.1 hdd.1
            exact ⟨c, hc, hcv⟩
          · obtain ⟨c, hc, hcv⟩ := List.mem_map.1 hhh.1
            exact ⟨c, hc, hcv⟩
          · obtain ⟨c, hc, hcv⟩ := List.mem_map.1 hmi.1
            exact ⟨c, hc, hcv⟩
          · obtain ⟨c, hc, hcv⟩ := List.mem_map.1 hss.1
            exact ⟨c, hc, hcv⟩
      · -- absolute fallback
        split at h
        · next r hmax =>
          obtain ⟨hmem, _⟩ := maxByW_spec hmax
          have hd : r.dt = d := by
            have := congrArg Prod.fst h
            simpa using this
          exact Or.inl ⟨r, hmem, hd⟩
        · exact absurd h (by simp)

/-- A clean `"YYYY-MM-DD HH:MM:SS"` text earns layout bonus `0.4 + 0.2`. -/
lemma clean_bonus {raw : List Char} (h1 : normalize_ocr raw = raw)
    (h2 : List.count ':' raw = 2) (h3 : searchFrom triRunPat raw = none)
    (h4 : (searchFrom nnnnPat raw).isSome = true) :
    rough_layout_bonus raw = 0.4 + 0.2 := by
  simp only [rough_layout_bonus, h1, h2, h3, h4]
  norm_num

/-- The OCR oracle of the C1 counterexample: three readable variants whose
per-field vote assembles a timestamp no candidate parsed. -/
def fabOracle (roi v : String) : List Char :=
  if roi = "full" ∧ v = "cubic|otsu_inv" then "2024-01-01 06:00:00".data
  else if roi = "full" ∧ v = "cubic|adapt_inv" then "2024-01-02 05:00:00".data
  else if roi = "mid60" ∧ v = "cubic|blur_otsu_inv" then "2024-01-02 06:00:01".data
  else []

def fabA : Candidate :=
  ⟨⟨2024, 1, 1, 6, 0, 0⟩, "2024-01-01 06:00:00", ⟨2024, 1, 1, 6, 0, 0⟩,
   "2024-01-01 06:00:00".data, "full", "cubic|otsu_inv",
   candidate_weight "full" "cubic|otsu_inv" "2024-01-01 06:00:00".data⟩

def fabB : Candidate :=
  ⟨⟨2024, 1, 2, 5, 0, 0⟩, "2024-01-02 05:00:00", ⟨2024, 1, 2, 5, 0, 0⟩,
   "2024-01-02 05:00:00".data, "full", "cubic|adapt_inv",
   candidate_weight "full" "cubic|adapt_inv" "2024-01-02 05:00:00".data⟩

def fabC : Candidate :=
  ⟨⟨2024, 1, 2, 6, 0, 1⟩, "2024-01-02 06:00:01", ⟨2024, 1, 2, 6, 0, 1⟩,
   "2024-01-02 06:00:01".data, "mid60", "cubic|blur_otsu_inv",
   candidate_weight "mid60" "cubic|blur_otsu_inv" "2024-01-02 06:00:01".data⟩

set_option maxHeartbeats 16000000 in
lemma fabOracle_cands : allCandidates fabOracle = [fabA, fabB, fabC] := by rfl

lemma fabA_w : fabA.w = 16 / 5 := by
  show candidate_weight "full" "cubic|otsu_inv" "2024-01-01 06:00:00".data = 16 / 5
  unfold candidate_weight
  rw [clean_bonus (by decide) (by decide) (by decide) (by decide)]
  have h1 : roiWeight "full" = 1.4 := rfl
  have h2 : variantWeight "cubic|otsu_inv" = 1.2 := rfl
  rw [h1, h2]
  norm_num

lemma fabB_w : fabB.w = 14 / 5 := by
  show candidate_weight "full" "cubic|adapt_inv" "2024-01-02 05:00:00".data = 14 / 5
  unfold candidate_weight
  rw [clean_bonus (by decide) (by decide) (by decide) (by decide)]
  have h1 : roiWeight "full" = 1.4 := rfl
  have h2 : variantWeight "cubic|adapt_inv" = 0.8 := rfl
  rw [h1, h2]
  norm_num

lemma fabC_w : fabC.w = 2 := by
  show candidate_weight "mid60" "cubic|blur_otsu_inv" "2024-01-02 06:00:01".data = 2
  unfold candidate_weight
  rw [clean_bonus (by decide) (by decide) (by decide) (by decide)]
  have h1 : roiWeight "mid60" = -1.0 := rfl
  have h2 : variantWeight "cubic|blur_otsu_inv" = 2.4 := rfl
  rw [h1, h2]
  norm_num

lemma fab_rank : rankCands [fabA, fabB, fabC] = [fabA, fabB, fabC] := by
  have hCB : fabC.w ≤ fabB.w := by rw [fabB_w, fabC_w]; norm_num
  have hBA : fabB.w ≤ fabA.w := by rw [fabA_w, fabB_w]; norm_num
  have s2 : List.orderedInsert (fun a b : Candidate => b.w ≤ a.w) fabB [fabC] =
      [fabB, fabC] := by
    simp only [List.orderedInsert]
    rw [if_pos hCB]
  have s3 : List.orderedInsert (fun a b : Candidate => b.w ≤ a.w) fabA [fabB, fabC] =
      [fabA, fabB, fabC] := by
    simp only [List.orderedInsert]
    rw [if_pos hBA]
  unfold rankCands
  simp only [List.insertionSort, List.orderedInsert_nil]
  rw [s2, s3]

lemma fab_elite : choose_elite_candidate [fabA, fabB, fabC] (4 / 5) = none := by
  rw [choose_elite_eq_form fab_rank]
  apply if_neg
  intro hcon
  exact absurd hcon.1.2 (by decide)

lemma fabA_posd : decide ((0 : ℚ) < fabA.w) = true :=
  decide_eq_true (by rw [fabA_w]; norm_num)

lemma fabB_posd : decide ((0 : ℚ) < fabB.w) = true :=
  decide_eq_true (by rw [fabB_w]; norm_num)

lemma fabC_posd : decide ((0 : ℚ) < fabC.w) = true :=
  decide_eq_true (by rw [fabC_w]; norm_num)

lemma fab_keys_d : tallyKeys [1, 2, 2] [fabA.w, fabB.w, fabC.w] = [1, 2] := by
  unfold tallyKeys
  simp [fabA_posd, fabB_posd, fabC_posd, List.dedup_cons_of_mem,
    List.dedup_cons_of_not_mem]

lemma fab_tally_d1 : posTally [1, 2, 2] [fabA.w, fabB.w, fabC.w] 1 = 16 / 5 := by
  unfold posTally
  simp [fabA_posd, fabB_posd, fabC_posd, fabA_w]

lemma fab_tally_d2 : posTally [1, 2, 2] [fabA.w, fabB.w, fabC.w] 2 = 24 / 5 := by
  unfold posTally
  simp [fabA_posd, fabB_posd, fabC_posd, fabB_w, fabC_w]
  norm_num

lemma fab_mode_d : weighted_mode [1, 2, 2] [fabA.w, fabB.w, fabC.w] = some 2 := by
  rw [weighted_mode_eq_head, fab_keys_d]
  have h12 : ¬(posTally [1, 2, 2] [fabA.w, fabB.w, fabC.w] 2 <
      posTally [1, 2, 2] [fabA.w, fabB.w, fabC.w] 1 ∨
      (posTally [1, 2, 2] [fabA.w, fabB.w, fabC.w] 1 =
        posTally [1, 2, 2] [fabA.w, fabB.w, fabC.w] 2 ∧ 1 ≤ 2)) := by
    rw [fab_tally_d1, fab_tally_d2]
    norm_num
  simp only [List.insertionSort, List.orderedInsert_nil, List.orderedInsert]
  rw [if_neg h12]
  rfl

lemma fab_keys_h : tallyKeys [6, 5, 6] [fabA.w, fabB.w, fabC.w] = [5, 6] := by
  unfold tallyKeys
  simp [fabA_posd, fabB_posd, fabC_posd, List.dedup_cons_of_mem,
    List.dedup_cons_of_not_mem]

lemma fab_tally_h6 : posTally [6, 5, 6] [fabA.w, fabB.w, fabC.w] 6 = 26 / 5 := by
  unfold posTally
  simp [fabA_posd, fabB_posd, fabC_posd, fabA_w, fabC_w]
  norm_num

lemma fab_tally_h5 : posTally [6, 5, 6] [fabA.w, fabB.w, fabC.w] 5 = 14 / 5 := by
  unfold posTally
  simp [fabA_posd, fabB_posd, fabC_posd, fabB_w]

lemma fab_mode_h : weighted_mode [6, 5, 6] [fabA.w, fabB.w, fabC.w] = some 6 := by
  rw [weighted_mode_eq_head, fab_keys_h]
  have h56n : ¬(posTally [6, 5, 6] [fabA.w, fabB.w, fabC.w] 6 <
      posTally [6, 5, 6] [fabA.w, fabB.w, fabC.w] 5 ∨
      (posTally [6, 5, 6] [fabA.w, fabB.w, fabC.w] 5 =
        posTally [6, 5, 6] [fabA.w, fabB.w, fabC.w] 6 ∧ 5 ≤ 6)) := by
    rw [fab_tally_h5, fab_tally_h6]
    norm_num
  simp only [List.insertionSort, List.orderedInsert_nil, List.orderedInsert]
  rw [if_neg h56n]
  rfl

lemma fab_keys_s : tallyKeys [0, 0, 1] [fabA.w, fabB.w, fabC.w] = [0, 1] := by
  unfold tallyKeys
  simp [fabA_posd, fabB_posd, fabC_posd, List.dedup_cons_of_mem,
    List.dedup_cons_of_not_mem]

lemma fab_tally_s0 : posTally [0, 0, 1] [fabA.w, fabB.w, fabC.w] 0 = 6 := by
  unfold posTally
  simp [fabA_posd, fabB_posd, fabC_posd, fabA_w, fabB_w]
  norm_num

lemma fab_tally_s1 : posTally [0, 0, 1] [fabA.w, fabB.w, fabC.w] 1 = 2 := by
  unfold posTally
  simp [fabA_posd, fabB_posd, fabC_posd, fabC_w]

lemma fab_mode_s : weighted_mode [0, 0, 1] [fabA.w, fabB.w, fabC.w] = some 0 := by
  rw [weighted_mode_eq_head, fab_keys_s]
  have h01 : posTally [0, 0, 1] [fabA.w, fabB.w, fabC.w] 1 <
      posTally [0, 0, 1] [fabA.w, fabB.w, fabC.w] 0 ∨
      (posTally [0, 0, 1] [fabA.w, fabB.w, fabC.w] 0 =
        posTally [0, 0, 1] [fabA.w, fabB.w, fabC.w] 1 ∧ 0 ≤ 1) := by
    rw [fab_tally_s0, fab_tally_s1]
    norm_num
  simp only [List.insertionSort, List.orderedInsert_nil, List.orderedInsert]
  rw [if_pos h01]
  rfl

lemma fab_mode_y : weighted_mode [2024, 2024, 2024] [fabA.w, fabB.w, fabC.w] =
    some 2024 := by
  have hkeys : tallyKeys [2024, 2024, 2024] [fabA.w, fabB.w, fabC.w] = [2024] := by
    unfold tallyKeys
    simp [fabA_posd, fabB_posd, fabC_posd, List.dedup_cons_of_mem,
      List.dedup_cons_of_not_mem]
  rw [weighted_mode_eq_head, hkeys]
  rfl

lemma fab_mode_mo : weighted_mode [1, 1, 1] [fabA.w, fabB.w, fabC.w] = some 1 := by
  have hkeys : tallyKeys [1, 1, 1] [fabA.w, fabB.w, fabC.w] = [1] := by
    unfold tallyKeys
    simp [fabA_posd, fabB_posd, fabC_posd, List.dedup_cons_of_mem,
      List.dedup_cons_of_not_mem]
  rw [weighted_mode_eq_head, hkeys]
  rfl

lemma fab_mode_mi : weighted_mode [0, 0, 0] [fabA.w, fabB.w, fabC.w] = some 0 := by
  have hkeys : tallyKeys [0, 0, 0] [fabA.w, fabB.w, fabC.w] = [0] := by
    unfold tallyKeys
    simp [fabA_posd, fabB_posd, fabC_posd, List.dedup_cons_of_mem,
      List.dedup_cons_of_not_mem]
  rw [weighted_mode_eq_head, hkeys]
  rfl

lemma fab_voted : votedOf [fabA, fabB, fabC] = some [2024, 1, 2, 6, 0, 0] := by
  have hcols : colsOf [fabA, fabB, fabC] =
      [[2024, 2024, 2024], [1, 1, 1], [1, 2, 2], [6, 5, 6], [0, 0, 0], [0, 0, 1]] := by
    rfl
  have hws : [fabA, fabB, fabC].map (·.w) = [fabA.w, fabB.w, fabC.w] := rfl
  unfold votedOf
  rw [hcols, hws]
  simp only [List.foldr]
  unfold voteStep
  rw [fab_mode_y, fab_mode_mo, fab_mode_d, fab_mode_h, fab_mode_mi, fab_mode_s]

lemma fab_rep1 : repStep ⟨2024, 1, 2, 6, 0, 0⟩ (-(10 ^ 9 : ℚ), none) fabA =
    (fabA.w - 0.5, some fabA) := by
  unfold repStep
  simp only [if_neg (show ¬(fabA.dt = ⟨2024, 1, 2, 6, 0, 0⟩) by decide)]
  rw [if_pos (show (-(10 ^ 9 : ℚ), (none : Option Candidate)).1 < fabA.w - 0.5 by
    rw [fabA_w]; norm_num)]

lemma fab_rep2 : repStep ⟨2024, 1, 2, 6, 0, 0⟩ (fabA.w - 0.5, some fabA) fabB =
    (fabA.w - 0.5, some fabA) := by
  unfold repStep
  simp only [if_neg (show ¬(fabB.dt = ⟨2024, 1, 2, 6, 0, 0⟩) by decide)]
  rw [if_neg (show ¬((fabA.w - 0.5, some fabA).1 < fabB.w - 0.5) by
    rw [fabA_w, fabB_w]; norm_num)]

lemma fab_rep3 : repStep ⟨2024, 1, 2, 6, 0, 0⟩ (fabA.w - 0.5, some fabA) fabC =
    (fabA.w - 0.5, some fabA) := by
  unfold repStep
  simp only [if_neg (show ¬(fabC.dt = ⟨2024, 1, 2, 6, 0, 0⟩) by decide)]
  rw [if_neg (show ¬((fabA.w - 0.5, some fabA).1 < fabC.w - 0.5) by
    rw [fabA_w, fabC_w]; norm_num)]

lemma fab_fields : choose_by_weighted_fields [fabA, fabB, fabC] =
    (some ⟨2024, 1, 2, 6, 0, 0⟩, some fabA) := by
  have hfold : [fabA, fabB, fabC].foldl (repStep ⟨2024, 1, 2, 6, 0, 0⟩)
      (-(10 ^ 9 : ℚ), none) = (fabA.w - 0.5, some fabA) := by
    simp only [List.foldl]
    rw [fab_rep1, fab_rep2, fab_rep3]
  have hstep : choose_by_weighted_fields [fabA, fabB, fabC] =
      (some ⟨2024, 1, 2, 6, 0, 0⟩,
        ([fabA, fabB, fabC].foldl (repStep ⟨2024, 1, 2, 6, 0, 0⟩)
          (-(10 ^ 9 : ℚ), none)).2) := by
    unfold choose_by_weighted_fields
    rw [fab_voted]
    rfl
  rw [hstep, hfold]

lemma fab_process : process_image true fabOracle (4 / 5) =
    (some ⟨2024, 1, 2, 6, 0, 0⟩, "2024-01-01 06:00:00".data) := by
  unfold process_image
  rw [fabOracle_cands]
  rw [if_neg (show ¬((!true) = true) by simp)]
  rw [if_neg (show ¬(([fabA, fabB, fabC].isEmpty) = true) by simp)]
  rw [fab_elite, fab_fields]
  rfl

/-- C1, the claim as stated is false: the per-field voting path can return a
timestamp that no candidate parsed.  Here three candidates parse
`2024-01-01 06:00:00`, `2024-01-02 05:00:00` and `2024-01-02 06:00:01`, the
elite shortcut declines (the top candidate's variant is not preferred), and
the assembled consensus `2024-01-02 06:00:00` differs from all three. -/
theorem process_image_fabricated_timestamp_cex :
    allCandidates fabOracle ≠ [] ∧
    (process_image true fabOracle (4 / 5)).1 = some ⟨2024, 1, 2, 6, 0, 0⟩ ∧
    ∀ c ∈ allCandidates fabOracle,
      c.dt ≠ (⟨2024, 1, 2, 6, 0, 0⟩ : Parts) ∧
      c.parts ≠ (⟨2024, 1, 2, 6, 0, 0⟩ : Parts) := by
  refine ⟨?_, ?_, ?_⟩
  · rw [fabOracle_cands]
    simp
  · rw [fab_process]
  · rw [fabOracle_cands]
    intro c hc
    fin_cases hc
    · exact ⟨by decide, by decide⟩
    · exact ⟨by decide, by decide⟩
    · exact ⟨by decide, by decide⟩

/-- Witness for C1 (amended): at the fabricating input, the provenance
disjunction holds (through its consensus disjunct). -/
theorem process_image_timestamp_provenance_witness :
    (∃ c ∈ allCandidates fabOracle, c.dt = (⟨2024, 1, 2, 6, 0, 0⟩ : Parts)) ∨
    ((∃ c ∈ allCandidates fabOracle, c.parts.y = 2024) ∧
     (∃ c ∈ allCandidates fabOracle, c.parts.mo = 1) ∧
     (∃ c ∈ allCandidates fabOracle, c.parts.d = 2) ∧
     (∃ c ∈ allCandidates fabOracle, c.parts.h = 6) ∧
     (∃ c ∈ allCandidates fabOracle, c.parts.mi = 0) ∧
     (∃ c ∈ allCandidates fabOracle, c.parts.s = 0)) :=
  process_image_timestamp_provenance fabOracle (4 / 5) ⟨2024, 1, 2, 6, 0, 0⟩
    ("2024-01-01 06:00:00".data) fab_process

/-! ## Claim C2: round-trip of the clean zero-padded timestamp string -/

lemma isPySpace_of_dig {c : Char} (h : isDig c = true) : isPySpace c = false := by
  simp only [isDig, Bool.decide_and, Bool.and_eq_true, decide_eq_true_eq] at h
  simp only [isPySpace, Bool.decide_or, Bool.or_eq_false_iff, decide_eq_false_iff_not,
    Bool.decide_and, Bool.and_eq_false_iff]
  omega

lemma nonDig_of_dig {c : Char} (h : isDig c = true) : nonDig c = false := by
  simp [nonDig, h]

lemma cIs_of_dig {c : Char} {n : Nat} (h : isDig c = true) (hn : n < 48 ∨ 57 < n) :
    cIs n c = false := by
  simp only [isDig, Bool.decide_and, Bool.and_eq_true, decide_eq_true_eq] at h
  simp only [cIs, decide_eq_false_iff_not]
  omega

lemma toNat_ne_of_dig {c : Char} {n : Nat} (h : isDig c = true) (hn : n < 48 ∨ 57 < n) :
    (c.toNat = n) = False := by
  simp only [isDig, Bool.decide_and, Bool.and_eq_true, decide_eq_true_eq] at h
  simp only [eq_iff_iff, iff_false]
  omega

lemma isDelim_of_dig {c : Char} (h : isDig c = true) : isDelim c = false := by
  simp [isDelim, cIs_of_dig (n := 58) h (Or.inr (by norm_num)), isPySpace_of_dig h]

lemma confus_of_dig {c : Char} (h : isDig c = true) : confus c = c := by
  simp only [isDig, Bool.decide_and, Bool.and_eq_true, decide_eq_true_eq] at h
  unfold confus
  rw [if_neg (by omega), if_neg (by omega), if_neg (by omega), if_neg (by omega),
    if_neg (by omega)]

lemma isSlashLike_of_dig {c : Char} (h : isDig c = true) : isSlashLike c = false := by
  simp only [isDig, Bool.decide_and, Bool.and_eq_true, decide_eq_true_eq] at h
  simp only [isSlashLike, Bool.decide_or, Bool.or_eq_false_iff, decide_eq_false_iff_not]
  omega

lemma nlfix_of_dig {c : Char} (h : isDig c = true) :
    (if c.toNat = 10 then ' ' else c) = c := by
  simp only [isDig, Bool.decide_and, Bool.and_eq_true, decide_eq_true_eq] at h
  rw [if_neg (by omega)]

/-! Evaluation lemmas for the pattern engine on partially symbolic input. -/

lemma pChar_pos {p : Char → Bool} {c : Char} {cs : Caps} {r : List Char}
    (h : p c = true) : pChar p cs (c :: r) = [(cs, r)] := by
  simp [pChar, h]

lemma pChar_neg {p : Char → Bool} {c : Char} {cs : Caps} {r : List Char}
    (h : p c = false) : pChar p cs (c :: r) = [] := by
  simp [pChar, h]

lemma prefixLen_pos {p : Char → Bool} {c : Char} {r : List Char}
    (h : p c = true) : prefixLen p (c :: r) = prefixLen p r + 1 := by
  simp [prefixLen, h]

lemma prefixLen_neg {p : Char → Bool} {c : Char} {r : List Char}
    (h : p c = false) : prefixLen p (c :: r) = 0 := by
  simp [prefixLen, h]

lemma take_diff1 (a : Char) (t : List Char) :
    (a :: t).take ((a :: t).length - t.length) = [a] := by
  simp

lemma take_diff2 (a b : Char) (t : List Char) :
    (a :: b :: t).take ((a :: b :: t).length - t.length) = [a, b] := by
  simp only [List.length_cons]
  have : t.length + 1 + 1 - t.length = 2 := by omega
  rw [this]
  rfl

lemma take_diff4 (a b c d : Char) (t : List Char) :
    (a :: b :: c :: d :: t).take ((a :: b :: c :: d :: t).length - t.length) =
      [a, b, c, d] := by
  simp only [List.length_cons]
  have : t.length + 1 + 1 + 1 + 1 - t.length = 4 := by omega
  rw [this]
  rfl

end SNPL
namespace SNPL

lemma cIs50_two : cIs 50 '2' = true := by decide
lemma cIs48_zero : cIs 48 '0' = true := by decide
lemma dig_two : isDig '2' = true := by decide
lemma dig_zero : isDig '0' = true := by decide
lemma nonDig_dash : nonDig '-' = true := by decide
lemma dig_dash : isDig '-' = false := by decide
lemma nonDig_space : nonDig ' ' = true := by decide
lemma dig_space : isDig ' ' = false := by decide
lemma nonDig_colon : nonDig ':' = true := by decide
lemma dig_colon : isDig ':' = false := by decide
lemma ws_space : isPySpace ' ' = true := by decide
lemma ws_colon : isPySpace ':' = false := by decide
lemma ws_dash : isPySpace '-' = false := by decide
lemma cIs58_colon : cIs 58 ':' = true := by decide

lemma take_len1 (a : Char) (t : List Char) :
    List.take (t.length + 1 - t.length) (a :: t) = [a] := by
  have h : t.length + 1 - t.length = 1 := by omega
  rw [h]
  rfl

lemma take_len2 (a b : Char) (t : List Char) :
    List.take (t.length + 1 + 1 - t.length) (a :: b :: t) = [a, b] := by
  have h : t.length + 1 + 1 - t.length = 2 := by omega
  rw [h]
  rfl

lemma take_len4 (a b c d : Char) (t : List Char) :
    List.take (t.length + 1 + 1 + 1 + 1 - t.length) (a :: b :: c :: d :: t) =
      [a, b, c, d] := by
  have h : t.length + 1 + 1 + 1 + 1 - t.length = 4 := by omega
  rw [h]
  rfl

set_option maxHeartbeats 2000000 in
lemma datePat_eval (A B C D E F : Char) (hA : isDig A = true) (hB : isDig B = true)
    (hC : isDig C = true) (hD : isDig D = true) (hE : isDig E = true)
    (hF : isDig F = true) (tail : List Char) :
    datePat [] ('2' :: '0' :: A :: B :: '-' :: C :: D :: '-' :: E :: F :: tail) =
      [([['2', '0', A, B], [C, D], [E, F]], tail)] := by
  simp [datePat, pYear, p2d, pCat, pSeq, pGrp, pNil, pRepG,
    pChar_pos, pChar_neg, prefixLen_pos, prefixLen_neg,
    take_diff1, take_diff2, take_diff4, take_len1, take_len2, take_len4,
    hA, hB, hC, hD, hE, hF,
    nonDig_of_dig hA, nonDig_of_dig hB, nonDig_of_dig hC, nonDig_of_dig hD,
    nonDig_of_dig hE, nonDig_of_dig hF,
    cIs50_two, cIs48_zero, dig_two, dig_zero, nonDig_dash, dig_dash,
    List.range_succ]

end SNPL
namespace SNPL

lemma dropWhile_eq_self_of_head {p : Char → Bool} {s : List Char}
    (h : ∀ c ∈ s.head?, p c = false) : s.dropWhile p = s := by
  cases s with
  | nil => rfl
  | cons c r =>
    have hc := h c (by simp)
    simp [List.dropWhile_cons, hc]

lemma pyStrip_eq_self {s : List Char}
    (h1 : ∀ c ∈ s.head?, isPySpace c = false)
    (h2 : ∀ c ∈ s.getLast?, isPySpace c = false) : pyStrip s = s := by
  unfold pyStrip
  rw [dropWhile_eq_self_of_head h1, dropWhile_eq_self_of_head ?_, List.reverse_reverse]
  intro c hc
  rw [List.head?_reverse] at hc
  exact h2 c hc

lemma cwa_nonspace {b : Bool} {c : Char} {r : List Char} (h : isPySpace c = false) :
    collapseWsAux b (c :: r) = c :: collapseWsAux false r := by
  cases b <;> simp [collapseWsAux, h]

lemma cwa_space_new {r : List Char} :
    collapseWsAux false (' ' :: r) = ' ' :: collapseWsAux true r := by
  simp [collapseWsAux, ws_space]

lemma cwa_nil (b : Bool) : collapseWsAux b [] = [] := by cases b <;> rfl

lemma cra_miss {t : Nat} {b : Bool} {c : Char} {r : List Char} (h : c.toNat ≠ t) :
    collapseRunAux t b (c :: r) = c :: collapseRunAux t false r := by
  cases b <;> simp [collapseRunAux, h]

lemma cra_hit_new {t : Nat} {c : Char} {r : List Char} (h : c.toNat = t) :
    collapseRunAux t false (c :: r) = c :: collapseRunAux t true r := by
  simp [collapseRunAux, h]

lemma cra_nil (t : Nat) (b : Bool) : collapseRunAux t b [] = [] := by cases b <;> rfl

lemma nlfix_two : (if '2'.toNat = 10 then ' ' else '2') = '2' := by decide
lemma nlfix_zero : (if '0'.toNat = 10 then ' ' else '0') = '0' := by decide
lemma nlfix_dash : (if '-'.toNat = 10 then ' ' else '-') = '-' := by decide
lemma nlfix_space : (if ' '.toNat = 10 then ' ' else ' ') = ' ' := by decide
lemma nlfix_colon : (if ':'.toNat = 10 then ' ' else ':') = ':' := by decide

lemma confus_two : confus '2' = '2' := by decide
lemma confus_zero : confus '0' = '0' := by decide
lemma confus_dash : confus '-' = '-' := by decide
lemma confus_space : confus ' ' = ' ' := by decide
lemma confus_colon : confus ':' = ':' := by decide
lemma slash_two : isSlashLike '2' = false := by decide
lemma slash_zero : isSlashLike '0' = false := by decide
lemma slash_dash : isSlashLike '-' = false := by decide
lemma slash_space : isSlashLike ' ' = false := by decide
lemma slash_colon : isSlashLike ':' = false := by decide

lemma toNat_ne_of_dig' {c : Char} {n : Nat} (h : isDig c = true)
    (hn : n < 48 ∨ 57 < n) : c.toNat ≠ n := by
  simp only [isDig, Bool.decide_and, Bool.and_eq_true, decide_eq_true_eq] at h
  omega

set_option maxHeartbeats 4000000 in
lemma normalize_render (A B C D E F G H I J K L : Char)
    (hA : isDig A = true) (hB : isDig B = true) (hC : isDig C = true)
    (hD : isDig D = true) (hE : isDig E = true) (hF : isDig F = true)
    (hG : isDig G = true) (hH : isDig H = true) (hI : isDig I = true)
    (hJ : isDig J = true) (hK : isDig K = true) (hL : isDig L = true) :
    normalize_ocr ('2' :: '0' :: A :: B :: '-' :: C :: D :: '-' :: E :: F :: ' ' ::
      G :: H :: ':' :: I :: J :: ':' :: K :: L :: []) =
    '2' :: '0' :: A :: B :: '-' :: C :: D :: '-' :: E :: F :: ' ' ::
      G :: H :: ':' :: I :: J :: ':' :: K :: L :: [] := by
  have hd58 : ∀ {c : Char}, isDig c = true → c.toNat ≠ 58 :=
    fun h => toNat_ne_of_dig' h (Or.inr (by norm_num))
  have hd45 : ∀ {c : Char}, isDig c = true → c.toNat ≠ 45 :=
    fun h => toNat_ne_of_dig' h (Or.inl (by norm_num))
  simp only [normalize_ocr, List.isEmpty_cons, Bool.false_eq_true, if_false,
    List.map_cons, List.map_nil,
    nlfix_of_dig hA, nlfix_of_dig hB, nlfix_of_dig hC, nlfix_of_dig hD,
    nlfix_of_dig hE, nlfix_of_dig hF, nlfix_of_dig hG, nlfix_of_dig hH,
    nlfix_of_dig hI, nlfix_of_dig hJ, nlfix_of_dig hK, nlfix_of_dig hL,
    nlfix_two, nlfix_zero, nlfix_dash, nlfix_space, nlfix_colon]
  rw [pyStrip_eq_self (by intro c hc; simp at hc; subst hc; decide)
    (by intro c hc
        simp [List.getLast?] at hc
        subst hc
        exact isPySpace_of_dig hL)]
  simp only [List.map_cons, List.map_nil, confus_two, confus_zero, confus_dash,
    confus_space, confus_colon,
    confus_of_dig hA, confus_of_dig hB, confus_of_dig hC, confus_of_dig hD,
    confus_of_dig hE, confus_of_dig hF, confus_of_dig hG, confus_of_dig hH,
    confus_of_dig hI, confus_of_dig hJ, confus_of_dig hK, confus_of_dig hL,
    List.filter_cons, List.filter_nil, slash_two, slash_zero, slash_dash,
    slash_space, slash_colon,
    isSlashLike_of_dig hA, isSlashLike_of_dig hB, isSlashLike_of_dig hC,
    isSlashLike_of_dig hD, isSlashLike_of_dig hE, isSlashLike_of_dig hF,
    isSlashLike_of_dig hG, isSlashLike_of_dig hH, isSlashLike_of_dig hI,
    isSlashLike_of_dig hJ, isSlashLike_of_dig hK, isSlashLike_of_dig hL,
    Bool.not_false, if_true]
  rw [cwa_nonspace (by decide), cwa_nonspace (by decide),
    cwa_nonspace (isPySpace_of_dig hA), cwa_nonspace (isPySpace_of_dig hB),
    cwa_nonspace (by decide),
    cwa_nonspace (isPySpace_of_dig hC), cwa_nonspace (isPySpace_of_dig hD),
    cwa_nonspace (by decide),
    cwa_nonspace (isPySpace_of_dig hE), cwa_nonspace (isPySpace_of_dig hF),
    cwa_space_new,
    cwa_nonspace (isPySpace_of_dig hG), cwa_nonspace (isPySpace_of_dig hH),
    cwa_nonspace (by decide),
    cwa_nonspace (isPySpace_of_dig hI), cwa_nonspace (isPySpace_of_dig hJ),
    cwa_nonspace (by decide),
    cwa_nonspace (isPySpace_of_dig hK), cwa_nonspace (isPySpace_of_dig hL),
    cwa_nil]
  have e58 : collapseRunAux 58 false
      ['2', '0', A, B, '-', C, D, '-', E, F, ' ', G, H, ':', I, J, ':', K, L] =
      ['2', '0', A, B, '-', C, D, '-', E, F, ' ', G, H, ':', I, J, ':', K, L] := by
    rw [cra_miss (by decide), cra_miss (by decide),
      cra_miss (hd58 hA), cra_miss (hd58 hB), cra_miss (by decide),
      cra_miss (hd58 hC), cra_miss (hd58 hD), cra_miss (by decide),
      cra_miss (hd58 hE), cra_miss (hd58 hF), cra_miss (by decide),
      cra_miss (hd58 hG), cra_miss (hd58 hH), cra_hit_new (by decide),
      cra_miss (hd58 hI), cra_miss (hd58 hJ), cra_hit_new (by decide),
      cra_miss (hd58 hK), cra_miss (hd58 hL), cra_nil]
  have e45 : collapseRunAux 45 false
      ['2', '0', A, B, '-', C, D, '-', E, F, ' ', G, H, ':', I, J, ':', K, L] =
      ['2', '0', A, B, '-', C, D, '-', E, F, ' ', G, H, ':', I, J, ':', K, L] := by
    rw [cra_miss (by decide), cra_miss (by decide),
      cra_miss (hd45 hA), cra_miss (hd45 hB), cra_hit_new (by decide),
      cra_miss (hd45 hC), cra_miss (hd45 hD), cra_hit_new (by decide),
      cra_miss (hd45 hE), cra_miss (hd45 hF), cra_miss (by decide),
      cra_miss (hd45 hG), cra_miss (hd45 hH), cra_miss (by decide),
      cra_miss (hd45 hI), cra_miss (hd45 hJ), cra_miss (by decide),
      cra_miss (hd45 hK), cra_miss (hd45 hL), cra_nil]
  rw [e58, e45]

end SNPL
namespace SNPL

lemma isDelim_two : isDelim '2' = false := by decide
lemma isDelim_zero : isDelim '0' = false := by decide
lemma isDelim_dash : isDelim '-' = false := by decide
lemma isDelim_space : isDelim ' ' = true := by decide
lemma isDelim_colon : isDelim ':' = true := by decide

set_option maxHeartbeats 1000000 in
lemma repair_render (A B C D E F G H I J K L : Char)
    (hA : isDig A = true) (hB : isDig B = true) (hC : isDig C = true)
    (hD : isDig D = true) (hE : isDig E = true) (hF : isDig F = true)
    (hG : isDig G = true) (hH : isDig H = true) (hI : isDig I = true)
    (hJ : isDig J = true) (hK : isDig K = true) (hL : isDig L = true) :
    repair_time_triplets ('2' :: '0' :: A :: B :: '-' :: C :: D :: '-' :: E :: F :: ' ' ::
      G :: H :: ':' :: I :: J :: ':' :: K :: L :: []) =
    '2' :: '0' :: A :: B :: '-' :: C :: D :: '-' :: E :: F :: ' ' ::
      G :: H :: ':' :: I :: J :: ':' :: K :: L :: [] := by
  simp [repair_time_triplets, repairAux, isDelim_two, isDelim_zero, isDelim_dash,
    isDelim_space, isDelim_colon, dig_colon,
    isDelim_of_dig hA, isDelim_of_dig hB, isDelim_of_dig hC, isDelim_of_dig hD,
    isDelim_of_dig hE, isDelim_of_dig hF, isDelim_of_dig hG, isDelim_of_dig hH,
    isDelim_of_dig hI, isDelim_of_dig hJ, isDelim_of_dig hK, isDelim_of_dig hL]

end SNPL
namespace SNPL

lemma take2lit (a b : Char) (t : List Char) : List.take 2 (a :: b :: t) = [a, b] := rfl
lemma drop2lit (a b : Char) (t : List Char) : List.drop 2 (a :: b :: t) = t := rfl
lemma drop1lit (a : Char) (t : List Char) : List.drop 1 (a :: t) = t := rfl

lemma timePat_space (r : List Char) : timePat [] (' ' :: r) = [] := by
  simp [timePat, p12d, pCat, pSeq, pGrp, pRepG, prefixLen, dig_space]

set_option maxHeartbeats 2000000 in
lemma timePat_eval (G H I J K L : Char)
    (hG : isDig G = true) (hH : isDig H = true) (hI : isDig I = true)
    (hJ : isDig J = true) (hK : isDig K = true) (hL : isDig L = true) :
    timePat [] (G :: H :: ':' :: I :: J :: ':' :: K :: L :: []) =
      [([[G, H], [I, J], [K, L]], [])] := by
  simp [timePat, p12d, p2d, pCat, pSeq, pGrp, pNil, pRepG, pStar,
    pChar_pos, pChar_neg, prefixLen_pos, prefixLen_neg,
    take2lit, drop2lit, drop1lit,
    hG, hH, hI, hJ, hK, hL, dig_colon, ws_colon,
    isPySpace_of_dig hG, isPySpace_of_dig hH, isPySpace_of_dig hI,
    isPySpace_of_dig hJ, isPySpace_of_dig hK, isPySpace_of_dig hL,
    cIs_of_dig (n := 58) hH (Or.inr (by norm_num)),
    cIs58_colon, List.range_succ]

lemma searchFrom_cons_head {m : Matcher} {c : Char} {t : List Char}
    {r : Caps × List Char} {rest : List (Caps × List Char)}
    (h : m [] (c :: t) = r :: rest) : searchFrom m (c :: t) = some r := by
  unfold searchFrom
  rw [h]

lemma searchFrom_cons_fail {m : Matcher} {c : Char} {t : List Char}
    (h : m [] (c :: t) = []) : searchFrom m (c :: t) = searchFrom m t := by
  conv_lhs => unfold searchFrom
  rw [h]

set_option maxHeartbeats 2000000 in
lemma stage0_render (A B C D E F G H I J K L : Char)
    (hA : isDig A = true) (hB : isDig B = true) (hC : isDig C = true)
    (hD : isDig D = true) (hE : isDig E = true) (hF : isDig F = true)
    (hG : isDig G = true) (hH : isDig H = true) (hI : isDig I = true)
    (hJ : isDig J = true) (hK : isDig K = true) (hL : isDig L = true) :
    stage0 ('2' :: '0' :: A :: B :: '-' :: C :: D :: '-' :: E :: F :: ' ' ::
      G :: H :: ':' :: I :: J :: ':' :: K :: L :: []) =
    mkDatetime (toVal ['2', '0', A, B]) (toVal [C, D]) (toVal [E, F])
      (toVal [G, H]) (toVal [I, J]) (toVal [K, L]) := by
  have hd : searchFrom datePat
      ('2' :: '0' :: A :: B :: '-' :: C :: D :: '-' :: E :: F :: ' ' ::
        G :: H :: ':' :: I :: J :: ':' :: K :: L :: []) =
      some ([['2', '0', A, B], [C, D], [E, F]],
        ' ' :: G :: H :: ':' :: I :: J :: ':' :: K :: L :: []) :=
    searchFrom_cons_head (datePat_eval A B C D E F hA hB hC hD hE hF _)
  have ht1 : searchFrom timePat (' ' :: G :: H :: ':' :: I :: J :: ':' :: K :: L :: []) =
      searchFrom timePat (G :: H :: ':' :: I :: J :: ':' :: K :: L :: []) :=
    searchFrom_cons_fail (timePat_space _)
  have ht2 : searchFrom timePat (G :: H :: ':' :: I :: J :: ':' :: K :: L :: []) =
      some ([[G, H], [I, J], [K, L]], []) :=
    searchFrom_cons_head (timePat_eval G H I J K L hG hH hI hJ hK hL)
  unfold stage0
  rw [hd]
  simp only [ht1, ht2]

lemma dchr_toNat {n : Nat} (h : n < 10) : (dchr n).toNat = 48 + n := by
  interval_cases n <;> decide

lemma isDig_dchr {n : Nat} (h : n < 10) : isDig (dchr n) = true := by
  interval_cases n <;> decide

lemma toVal4_20 {a b : Nat} (ha : a < 10) (hb : b < 10) :
    toVal ['2', '0', dchr a, dchr b] = 2000 + 10 * a + b := by
  have h2 : '2'.toNat = 50 := rfl
  have h0 : '0'.toNat = 48 := rfl
  simp [toVal, h2, h0, dchr_toNat ha, dchr_toNat hb]
  omega

lemma toVal2dchr {a b : Nat} (ha : a < 10) (hb : b < 10) :
    toVal [dchr a, dchr b] = 10 * a + b := by
  simp [toVal, dchr_toNat ha, dchr_toNat hb]
  omega

set_option maxHeartbeats 2000000 in
/-- C2: for every six-field tuple that forms a calendar-valid date-time whose
year lies in 2000–2099, `parse_timestamp_flex` applied to the verbatim
zero-padded rendering "YYYY-MM-DD HH:MM:SS" succeeds and returns exactly those
fields.  (The year restriction is forced: every pattern of the cascade anchors
on a literal "20", so valid years outside 20xx do not round-trip; see the
counterexample.) -/
theorem parse_timestamp_flex_roundtrip (p : Parts) (hv : validDT p = true)
    (hy1 : 2000 ≤ p.y) (hy2 : p.y ≤ 2099) :
    parse_timestamp_flex (renderTS p) = some p := by
  have hvP := hv
  simp only [validDT, decide_eq_true_eq] at hvP
  obtain ⟨b1, b2, b3, b4, b5, b6, b7, b8, b9⟩ := hvP
  have hdm : daysInMonth p.y p.mo ≤ 31 := by
    unfold daysInMonth
    split <;> split <;> omega
  have hd100 : p.d < 100 := by omega
  have hy3 : p.y / 1000 % 10 = 2 := by omega
  have hy4 : p.y / 100 % 10 = 0 := by omega
  have e2 : dchr 2 = '2' := by decide
  have e0 : dchr 0 = '0' := by decide
  have hshape : renderTS p =
      '2' :: '0' :: dchr (p.y / 10 % 10) :: dchr (p.y % 10) :: '-' ::
      dchr (p.mo / 10 % 10) :: dchr (p.mo % 10) :: '-' ::
      dchr (p.d / 10 % 10) :: dchr (p.d % 10) :: ' ' ::
      dchr (p.h / 10 % 10) :: dchr (p.h % 10) :: ':' ::
      dchr (p.mi / 10 % 10) :: dchr (p.mi % 10) :: ':' ::
      dchr (p.s / 10 % 10) :: dchr (p.s % 10) :: [] := by
    simp [renderTS, hy3, hy4, e2, e0]
  have dA := isDig_dchr (Nat.mod_lt (p.y / 10) (by norm_num))
  have dB := isDig_dchr (Nat.mod_lt p.y (by norm_num))
  have dC := isDig_dchr (Nat.mod_lt (p.mo / 10) (by norm_num))
  have dD := isDig_dchr (Nat.mod_lt p.mo (by norm_num))
  have dE := isDig_dchr (Nat.mod_lt (p.d / 10) (by norm_num))
  have dF := isDig_dchr (Nat.mod_lt p.d (by norm_num))
  have dG := isDig_dchr (Nat.mod_lt (p.h / 10) (by norm_num))
  have dH := isDig_dchr (Nat.mod_lt p.h (by norm_num))
  have dI := isDig_dchr (Nat.mod_lt (p.mi / 10) (by norm_num))
  have dJ := isDig_dchr (Nat.mod_lt p.mi (by norm_num))
  have dK := isDig_dchr (Nat.mod_lt (p.s / 10) (by norm_num))
  have dL := isDig_dchr (Nat.mod_lt p.s (by norm_num))
  have hnorm := normalize_render _ _ _ _ _ _ _ _ _ _ _ _
    dA dB dC dD dE dF dG dH dI dJ dK dL
  have hrep := repair_render _ _ _ _ _ _ _ _ _ _ _ _
    dA dB dC dD dE dF dG dH dI dJ dK dL
  have hs0 : stage0 ('2' :: '0' :: dchr (p.y / 10 % 10) :: dchr (p.y % 10) :: '-' ::
      dchr (p.mo / 10 % 10) :: dchr (p.mo % 10) :: '-' ::
      dchr (p.d / 10 % 10) :: dchr (p.d % 10) :: ' ' ::
      dchr (p.h / 10 % 10) :: dchr (p.h % 10) :: ':' ::
      dchr (p.mi / 10 % 10) :: dchr (p.mi % 10) :: ':' ::
      dchr (p.s / 10 % 10) :: dchr (p.s % 10) :: []) = some p := by
    rw [stage0_render _ _ _ _ _ _ _ _ _ _ _ _
      dA dB dC dD dE dF dG dH dI dJ dK dL]
    rw [toVal4_20 (Nat.mod_lt _ (by norm_num)) (Nat.mod_lt _ (by norm_num)),
      toVal2dchr (Nat.mod_lt _ (by norm_num)) (Nat.mod_lt _ (by norm_num)),
      toVal2dchr (Nat.mod_lt _ (by norm_num)) (Nat.mod_lt _ (by norm_num)),
      toVal2dchr (Nat.mod_lt _ (by norm_num)) (Nat.mod_lt _ (by norm_num)),
      toVal2dchr (Nat.mod_lt _ (by norm_num)) (Nat.mod_lt _ (by norm_num)),
      toVal2dchr (Nat.mod_lt _ (by norm_num)) (Nat.mod_lt _ (by norm_num))]
    rw [show 2000 + 10 * (p.y / 10 % 10) + p.y % 10 = p.y from by omega,
      show 10 * (p.mo / 10 % 10) + p.mo % 10 = p.mo from by omega,
      show 10 * (p.d / 10 % 10) + p.d % 10 = p.d from by omega,
      show 10 * (p.h / 10 % 10) + p.h % 10 = p.h from by omega,
      show 10 * (p.mi / 10 % 10) + p.mi % 10 = p.mi from by omega,
      show 10 * (p.s / 10 % 10) + p.s % 10 = p.s from by omega]
    have hp : (⟨p.y, p.mo, p.d, p.h, p.mi, p.s⟩ : Parts) = p := rfl
    unfold mkDatetime
    rw [hp, hv]
    simp
  rw [hshape]
  simp only [parse_timestamp_flex, List.isEmpty_cons, Bool.false_eq_true, if_false]
  rw [hnorm, hrep, hs0]
  rfl

end SNPL
namespace SNPL

/-! ### Idempotence machinery for `normalize_ocr` -/

lemma charEq_of_toNat {a c : Char} (h : a.toNat = c.toNat) : a = c :=
  Char.ext (UInt32.ext h)

lemma map_eq_self' {f : Char → Char} : ∀ {l : List Char}, (∀ a ∈ l, f a = a) → l.map f = l
  | [], _ => rfl
  | a :: r, h => by
    rw [List.map_cons, h a (by simp), map_eq_self' (fun b hb => h b (List.mem_cons_of_mem _ hb))]

lemma dropWhile_head_not {p : Char → Bool} :
    ∀ {l : List Char}, ∀ c ∈ (l.dropWhile p).head?, p c = false := by
  intro l
  induction l with
  | nil => intro c hc; simp at hc
  | cons a r ih =>
    intro c hc
    by_cases h : p a = true
    · rw [List.dropWhile_cons_of_pos h] at hc
      exact ih c hc
    · rw [List.dropWhile_cons_of_neg h] at hc
      simp at hc
      subst hc
      exact Bool.eq_false_iff.mpr h

lemma getLast?_cons_some {a d : Char} {l : List Char} (h : l.getLast? = some d) :
    (a :: l).getLast? = some d := by
  cases l with
  | nil => simp at h
  | cons b m => rw [List.getLast?_cons_cons]; exact h

lemma getLast?_none {l : List Char} (h : l.getLast? = none) : l = [] := by
  cases l with
  | nil => rfl
  | cons b m =>
    exfalso
    induction m generalizing b with
    | nil => simp at h
    | cons c r ih => rw [List.getLast?_cons_cons] at h; exact ih c h

lemma getLast?_append_some {l : List Char} {c : Char} (h : l.getLast? = some c) :
    ∀ pre : List Char, (pre ++ l).getLast? = some c
  | [] => h
  | q :: qs => by
    rw [List.cons_append]
    exact getLast?_cons_some (getLast?_append_some h qs)

lemma pyStrip_head {s : List Char} : ∀ c ∈ (pyStrip s).head?, isPySpace c = false := by
  intro c hc
  unfold pyStrip at hc
  rw [List.head?_reverse] at hc
  rcases h : ((s.dropWhile isPySpace).reverse.dropWhile isPySpace) with _ | ⟨a, r⟩
  · rw [h] at hc; simp at hc
  · rw [h] at hc
    have ha : a ∈ ((s.dropWhile isPySpace).reverse.dropWhile isPySpace).head? := by
      rw [h]; simp
    have h2 : (a :: r).getLast? = some c := hc
    have hsuf : List.Sublist ((s.dropWhile isPySpace).reverse.dropWhile isPySpace)
        (s.dropWhile isPySpace).reverse := List.dropWhile_sublist _
    -- c is the getLast of the dropWhile; relate to head of the original dropWhile
    -- the suffix property: dropWhile is a suffix, so its getLast equals the ambient getLast
    have hsuffix : ((s.dropWhile isPySpace).reverse.dropWhile isPySpace) <:+
        (s.dropWhile isPySpace).reverse := List.dropWhile_suffix _
    obtain ⟨pre, hpre⟩ := hsuffix
    have : (s.dropWhile isPySpace).reverse.getLast? = some c := by
      rw [← hpre, h]
      exact getLast?_append_some h2 pre
    rw [List.getLast?_reverse] at this
    exact dropWhile_head_not c this

lemma pyStrip_last {s : List Char} : ∀ c ∈ (pyStrip s).getLast?, isPySpace c = false := by
  intro c hc
  unfold pyStrip at hc
  rw [List.getLast?_reverse] at hc
  exact dropWhile_head_not c hc

lemma pyStrip_mem {c : Char} {s : List Char} (h : c ∈ pyStrip s) : c ∈ s := by
  unfold pyStrip at h
  rw [List.mem_reverse] at h
  have h1 := (List.dropWhile_sublist (l := (s.dropWhile isPySpace).reverse)
    isPySpace).mem h
  rw [List.mem_reverse] at h1
  exact (List.dropWhile_sublist isPySpace).mem h1

/-- No two adjacent characters both satisfy `p`. -/
def noRun (p : Char → Bool) (y : List Char) : Prop :=
  List.Chain' (fun a b => p a = true → p b = false) y

lemma noRun_nil {p : Char → Bool} : noRun p [] := List.chain'_nil

lemma noRun_tail {p : Char → Bool} {c : Char} {r : List Char} (h : noRun p (c :: r)) :
    noRun p r := ((List.chain'_cons'.mp h).2)

lemma noRun_head {p : Char → Bool} {c : Char} {r : List Char} (h : noRun p (c :: r))
    (hc : p c = true) : ∀ d ∈ r.head?, p d = false := by
  intro d hd
  exact (List.chain'_cons'.mp h).1 d hd hc

end SNPL
namespace SNPL

lemma cwa_true_eq {r : List Char} (h : ∀ c ∈ r.head?, isPySpace c = false) :
    collapseWsAux true r = collapseWsAux false r := by
  cases r with
  | nil => rfl
  | cons c2 r2 => simp [collapseWsAux, h c2 (by simp)]

lemma cwa_id : ∀ {y : List Char}, (∀ c ∈ y, isPySpace c = true → c = ' ') →
    noRun isPySpace y → collapseWsAux false y = y
  | [], _, _ => rfl
  | c :: r, hws, hadj => by
    by_cases hc : isPySpace c = true
    · have hc' : c = ' ' := hws c (by simp) hc
      have hr : ∀ d ∈ r.head?, isPySpace d = false := noRun_head hadj hc
      rw [show collapseWsAux false (c :: r) = ' ' :: collapseWsAux true r from by
        simp [collapseWsAux, hc]]
      rw [cwa_true_eq hr,
        cwa_id (fun d hd => hws d (List.mem_cons_of_mem _ hd)) (noRun_tail hadj), hc']
    · rw [cwa_nonspace (Bool.eq_false_iff.mpr hc),
        cwa_id (fun d hd => hws d (List.mem_cons_of_mem _ hd)) (noRun_tail hadj)]

lemma cwa_ws_space : ∀ (z : List Char) (b : Bool),
    ∀ c ∈ collapseWsAux b z, isPySpace c = true → c = ' '
  | [], b => by intro c hc; cases b <;> simp [collapseWsAux] at hc
  | d :: r, b => by
    intro c hc hcw
    by_cases hd : isPySpace d = true
    · cases b with
      | true =>
        rw [show collapseWsAux true (d :: r) = collapseWsAux true r from by
          simp [collapseWsAux, hd]] at hc
        exact cwa_ws_space r true c hc hcw
      | false =>
        rw [show collapseWsAux false (d :: r) = ' ' :: collapseWsAux true r from by
          simp [collapseWsAux, hd]] at hc
        rcases List.mem_cons.mp hc with h | h
        · exact h
        · exact cwa_ws_space r true c h hcw
    · rw [cwa_nonspace (Bool.eq_false_iff.mpr hd)] at hc
      rcases List.mem_cons.mp hc with h | h
      · subst h; exact absurd hcw hd
      · exact cwa_ws_space r false c h hcw

lemma cwa_mem : ∀ (z : List Char) (b : Bool), ∀ c ∈ collapseWsAux b z, c = ' ' ∨ c ∈ z
  | [], b => by intro c hc; cases b <;> simp [collapseWsAux] at hc
  | d :: r, b => by
    intro c hc
    by_cases hd : isPySpace d = true
    · cases b with
      | true =>
        rw [show collapseWsAux true (d :: r) = collapseWsAux true r from by
          simp [collapseWsAux, hd]] at hc
        rcases cwa_mem r true c hc with h | h
        · exact Or.inl h
        · exact Or.inr (List.mem_cons_of_mem _ h)
      | false =>
        rw [show collapseWsAux false (d :: r) = ' ' :: collapseWsAux true r from by
          simp [collapseWsAux, hd]] at hc
        rcases List.mem_cons.mp hc with h | h
        · exact Or.inl h
        · rcases cwa_mem r true c h with h2 | h2
          · exact Or.inl h2
          · exact Or.inr (List.mem_cons_of_mem _ h2)
    · rw [cwa_nonspace (Bool.eq_false_iff.mpr hd)] at hc
      rcases List.mem_cons.mp hc with h | h
      · exact Or.inr (h ▸ List.mem_cons_self _ _)
      · rcases cwa_mem r false c h with h2 | h2
        · exact Or.inl h2
        · exact Or.inr (List.mem_cons_of_mem _ h2)

lemma cwa_noadj : ∀ z : List Char,
    noRun isPySpace (collapseWsAux false z) ∧ noRun isPySpace (collapseWsAux true z) ∧
      (∀ c ∈ (collapseWsAux true z).head?, isPySpace c = false)
  | [] => by refine ⟨noRun_nil, noRun_nil, ?_⟩; intro c hc; simp [collapseWsAux] at hc
  | d :: r => by
    obtain ⟨ihF, ihT, ihH⟩ := cwa_noadj r
    by_cases hd : isPySpace d = true
    · have eT : collapseWsAux true (d :: r) = collapseWsAux true r := by
        simp [collapseWsAux, hd]
      have eF : collapseWsAux false (d :: r) = ' ' :: collapseWsAux true r := by
        simp [collapseWsAux, hd]
      refine ⟨?_, ?_, ?_⟩
      · rw [eF]
        exact List.chain'_cons'.mpr ⟨fun b hb _ => ihH b hb, ihT⟩
      · rw [eT]; exact ihT
      · rw [eT]; exact ihH
    · have hd' : isPySpace d = false := Bool.eq_false_iff.mpr hd
      have eB : ∀ b, collapseWsAux b (d :: r) = d :: collapseWsAux false r :=
        fun b => cwa_nonspace hd'
      have hchain : noRun isPySpace (d :: collapseWsAux false r) :=
        List.chain'_cons'.mpr ⟨fun b _ hw => absurd hw hd, ihF⟩
      refine ⟨?_, ?_, ?_⟩
      · rw [eB false]; exact hchain
      · rw [eB true]; exact hchain
      · rw [eB true]; intro c hc; simp at hc; subst hc; exact hd'

lemma cwa_false_head_eq {z : List Char} (h : ∀ c ∈ z.head?, isPySpace c = false) :
    (collapseWsAux false z).head? = z.head? := by
  cases z with
  | nil => rfl
  | cons d r => rw [cwa_nonspace (h d (by simp))]; rfl

lemma cwa_last {d : Char} : ∀ (z : List Char) (b : Bool), isPySpace d = false →
    z.getLast? = some d → (collapseWsAux b z).getLast? = some d
  | [], b => by intro _ h; simp at h
  | c :: r, b => by
    intro hd h
    cases r with
    | nil =>
      have hc : c = d := by simpa using h
      subst hc
      cases b <;> simp [collapseWsAux, hd]
    | cons c2 r2 =>
      have h' : (c2 :: r2).getLast? = some d := by rwa [List.getLast?_cons_cons] at h
      by_cases hc : isPySpace c = true
      · cases b with
        | true =>
          rw [show collapseWsAux true (c :: c2 :: r2) = collapseWsAux true (c2 :: r2) from by
            simp [collapseWsAux, hc]]
          exact cwa_last (c2 :: r2) true hd h'
        | false =>
          rw [show collapseWsAux false (c :: c2 :: r2) = ' ' :: collapseWsAux true (c2 :: r2)
            from by simp [collapseWsAux, hc]]
          exact getLast?_cons_some (cwa_last (c2 :: r2) true hd h')
      · rw [cwa_nonspace (Bool.eq_false_iff.mpr hc)]
        exact getLast?_cons_some (cwa_last (c2 :: r2) false hd h')

end SNPL
namespace SNPL

lemma cra_true_eq {t : Nat} {r : List Char} (h : ∀ c ∈ r.head?, (c.toNat = t) = False) :
    collapseRunAux t true r = collapseRunAux t false r := by
  cases r with
  | nil => rfl
  | cons c2 r2 => simp [collapseRunAux, h c2 (by simp)]

lemma cra_id {t : Nat} : ∀ {y : List Char},
    noRun (fun c => decide (c.toNat = t)) y → collapseRunAux t false y = y
  | [], _ => rfl
  | c :: r, hadj => by
    by_cases hc : c.toNat = t
    · have hr : ∀ d ∈ r.head?, (d.toNat = t) = False := by
        intro d hd
        have := noRun_head hadj (by simp [hc]) d hd
        simp at this
        simp [this]
      rw [cra_hit_new hc, cra_true_eq hr, cra_id (noRun_tail hadj)]
    · rw [cra_miss hc, cra_id (noRun_tail hadj)]

lemma cra_false_head {t : Nat} (z : List Char) :
    (collapseRunAux t false z).head? = z.head? := by
  cases z with
  | nil => rfl
  | cons c r =>
    by_cases h : c.toNat = t
    · rw [cra_hit_new h]; rfl
    · rw [cra_miss h]; rfl

lemma cra_mem {t : Nat} : ∀ (z : List Char) (b : Bool), ∀ c ∈ collapseRunAux t b z, c ∈ z
  | [], b => by intro c hc; cases b <;> simp [collapseRunAux] at hc
  | d :: r, b => by
    intro c hc
    by_cases hd : d.toNat = t
    · cases b with
      | true =>
        rw [show collapseRunAux t true (d :: r) = collapseRunAux t true r from by
          simp [collapseRunAux, hd]] at hc
        exact List.mem_cons_of_mem _ (cra_mem r true c hc)
      | false =>
        rw [cra_hit_new hd] at hc
        rcases List.mem_cons.mp hc with h | h
        · exact h ▸ List.mem_cons_self _ _
        · exact List.mem_cons_of_mem _ (cra_mem r true c h)
    · rw [cra_miss hd] at hc
      rcases List.mem_cons.mp hc with h | h
      · exact h ▸ List.mem_cons_self _ _
      · exact List.mem_cons_of_mem _ (cra_mem r false c h)

lemma cra_noadj (t : Nat) : ∀ z : List Char,
    noRun (fun c => decide (c.toNat = t)) (collapseRunAux t false z) ∧
    noRun (fun c => decide (c.toNat = t)) (collapseRunAux t true z) ∧
      (∀ c ∈ (collapseRunAux t true z).head?, decide (c.toNat = t) = false)
  | [] => by
    refine ⟨noRun_nil, noRun_nil, ?_⟩
    intro c hc
    simp [collapseRunAux] at hc
  | d :: r => by
    obtain ⟨ihF, ihT, ihH⟩ := cra_noadj t r
    by_cases hd : d.toNat = t
    · have eT : collapseRunAux t true (d :: r) = collapseRunAux t true r := by
        simp [collapseRunAux, hd]
      refine ⟨?_, ?_, ?_⟩
      · rw [cra_hit_new hd]
        exact List.chain'_cons'.mpr ⟨fun b hb _ => ihH b hb, ihT⟩
      · rw [eT]; exact ihT
      · rw [eT]; exact ihH
    · have hchain : noRun (fun c => decide (c.toNat = t)) (d :: collapseRunAux t false r) :=
        List.chain'_cons'.mpr ⟨fun b _ hw => absurd (of_decide_eq_true hw) hd, ihF⟩
      refine ⟨?_, ?_, ?_⟩
      · rw [cra_miss hd]; exact hchain
      · rw [cra_miss hd]; exact hchain
      · rw [cra_miss hd]
        intro c hc
        simp at hc
        subst hc
        simp [hd]

lemma cra_pres {p : Char → Bool} {t : Nat} (hp : ∀ c, c.toNat = t → p c = false) :
    ∀ (z : List Char) (b : Bool), noRun p z → noRun p (collapseRunAux t b z)
  | [], b, _ => by cases b <;> exact noRun_nil
  | c :: r, b, hadj => by
    by_cases hc : c.toNat = t
    · cases b with
      | true =>
        rw [show collapseRunAux t true (c :: r) = collapseRunAux t true r from by
          simp [collapseRunAux, hc]]
        exact cra_pres hp r true (noRun_tail hadj)
      | false =>
        rw [cra_hit_new hc]
        exact List.chain'_cons'.mpr
          ⟨fun b _ hw => absurd hw (by simp [hp c hc]), cra_pres hp r true (noRun_tail hadj)⟩
    · rw [cra_miss hc]
      refine List.chain'_cons'.mpr ⟨?_, cra_pres hp r false (noRun_tail hadj)⟩
      intro e he hcp
      rw [cra_false_head] at he
      exact noRun_head hadj hcp e he

lemma cra_last {t : Nat} {d : Char} : ∀ z : List Char, z.getLast? = some d →
    (collapseRunAux t false z).getLast? = some d ∧
    ((collapseRunAux t true z).getLast? = some d ∨
      (collapseRunAux t true z = [] ∧ d.toNat = t))
  | [], h => by simp at h
  | c :: r, h => by
    cases r with
    | nil =>
      have hc : c = d := by simpa using h
      subst hc
      by_cases ht : c.toNat = t
      · constructor
        · rw [cra_hit_new ht]; simp [collapseRunAux]
        · right
          constructor
          · simp [collapseRunAux, ht]
          · exact ht
      · constructor
        · rw [cra_miss ht]; simp [collapseRunAux]
        · left; rw [cra_miss ht]; simp [collapseRunAux]
    | cons c2 r2 =>
      have h' : (c2 :: r2).getLast? = some d := by rwa [List.getLast?_cons_cons] at h
      obtain ⟨ihF, ihT⟩ := cra_last (t := t) (c2 :: r2) h'
      by_cases ht : c.toNat = t
      · have eT : collapseRunAux t true (c :: c2 :: r2) = collapseRunAux t true (c2 :: r2) := by
          simp [collapseRunAux, ht]
        constructor
        · rw [cra_hit_new ht]
          rcases ihT with h2 | ⟨h2, h3⟩
          · exact getLast?_cons_some h2
          · rw [h2]
            have : c = d := charEq_of_toNat (by rw [ht, h3])
            simp [this]
        · rw [eT]; exact ihT
      · constructor
        · rw [cra_miss ht]; exact getLast?_cons_some ihF
        · left; rw [cra_miss ht]; exact getLast?_cons_some ihF

end SNPL
namespace SNPL

lemma confus_cases (c : Char) : confus c = '0' ∨ confus c = '1' ∨ confus c = '5' ∨
    confus c = '8' ∨ confus c = '-' ∨ confus c = c := by
  unfold confus
  repeat' split
  all_goals simp

lemma confus_idem (c : Char) : confus (confus c) = confus c := by
  rcases confus_cases c with h | h | h | h | h | h <;> rw [h]
  · decide
  · decide
  · decide
  · decide
  · decide
  · simp [h]

lemma confus_nonws {c : Char} (h : isPySpace c = false) : isPySpace (confus c) = false := by
  rcases confus_cases c with h2 | h2 | h2 | h2 | h2 | h2 <;> rw [h2]
  · decide
  · decide
  · decide
  · decide
  · decide
  · exact h

lemma confus_slash {c : Char} (h : isSlashLike c = false) :
    isSlashLike (confus c) = false := by
  rcases confus_cases c with h2 | h2 | h2 | h2 | h2 | h2 <;> rw [h2]
  · decide
  · decide
  · decide
  · decide
  · decide
  · exact h

lemma nl_slash {c : Char} (h : isSlashLike c = false) :
    isSlashLike (if c.toNat = 10 then ' ' else c) = false := by
  by_cases h10 : c.toNat = 10
  · rw [if_pos h10]; decide
  · rw [if_neg h10]; exact h

set_option maxHeartbeats 1000000 in
/-- The output of `normalize_ocr` on slash-free input is in normal form:
its whitespace is single spaces with non-whitespace at both ends, it is
fixed by the confusable map, slash-free, and has no repeated `:` or `-`. -/
lemma normalized_props {x : List Char} (hx : ∀ c ∈ x, isSlashLike c = false) :
    (∀ c ∈ normalize_ocr x, isPySpace c = true → c = ' ') ∧
    (∀ c ∈ (normalize_ocr x).head?, isPySpace c = false) ∧
    (∀ c ∈ (normalize_ocr x).getLast?, isPySpace c = false) ∧
    (∀ c ∈ normalize_ocr x, confus c = c) ∧
    (∀ c ∈ normalize_ocr x, isSlashLike c = false) ∧
    noRun isPySpace (normalize_ocr x) ∧
    noRun (fun c => decide (c.toNat = 58)) (normalize_ocr x) ∧
    noRun (fun c => decide (c.toNat = 45)) (normalize_ocr x) := by
  by_cases hxe : x.isEmpty = true
  · have : x = [] := by
      cases x with
      | nil => rfl
      | cons a r => simp at hxe
    subst this
    refine ⟨?_, ?_, ?_, ?_, ?_, noRun_nil, noRun_nil, noRun_nil⟩ <;>
      intro c hc <;> simp [normalize_ocr] at hc
  · have hne : x.isEmpty = false := Bool.eq_false_iff.mpr hxe
    have hrw : normalize_ocr x =
        collapseRunAux 45 false (collapseRunAux 58 false (collapseWsAux false
          (List.filter (fun c => !(isSlashLike c))
            (List.map confus (pyStrip (List.map
              (fun c => if c.toNat = 10 then ' ' else c) x)))))) := by
      simp only [normalize_ocr, hne, Bool.false_eq_true, if_false]
    rw [hrw]
    -- the stripped, confusable-fixed, slash-filtered text
    have h1slash : ∀ c ∈ List.map (fun c => if c.toNat = 10 then ' ' else c) x,
        isSlashLike c = false := by
      intro c hc
      obtain ⟨d, hd, rfl⟩ := List.mem_map.mp hc
      exact nl_slash (hx d hd)
    have h2slash : ∀ c ∈ pyStrip (List.map (fun c => if c.toNat = 10 then ' ' else c) x),
        isSlashLike c = false := fun c hc => h1slash c (pyStrip_mem hc)
    have h3slash : ∀ c ∈ List.map confus
        (pyStrip (List.map (fun c => if c.toNat = 10 then ' ' else c) x)),
        isSlashLike c = false := by
      intro c hc
      obtain ⟨d, hd, rfl⟩ := List.mem_map.mp hc
      exact confus_slash (h2slash d hd)
    have hfilter : List.filter (fun c => !(isSlashLike c))
        (List.map confus (pyStrip (List.map (fun c => if c.toNat = 10 then ' ' else c) x))) =
        List.map confus (pyStrip (List.map (fun c => if c.toNat = 10 then ' ' else c) x)) :=
      List.filter_eq_self.mpr (fun c hc => by rw [h3slash c hc]; rfl)
    rw [hfilter]
    set t3 := List.map confus (pyStrip (List.map (fun c => if c.toNat = 10 then ' ' else c) x))
      with ht3
    have h3head : ∀ c ∈ t3.head?, isPySpace c = false := by
      intro c hc
      rw [ht3, List.head?_map, Option.mem_def, Option.map_eq_some'] at hc
      obtain ⟨d, hd, rfl⟩ := hc
      exact confus_nonws (pyStrip_head d hd)
    have h3last : ∀ c ∈ t3.getLast?, isPySpace c = false := by
      intro c hc
      rw [ht3, List.getLast?_map, Option.mem_def, Option.map_eq_some'] at hc
      obtain ⟨d, hd, rfl⟩ := hc
      exact confus_nonws (pyStrip_last d hd)
    have h3conf : ∀ c ∈ t3, confus c = c := by
      intro c hc
      rw [ht3] at hc
      obtain ⟨d, hd, rfl⟩ := List.mem_map.mp hc
      exact confus_idem d
    -- membership chains through the collapses
    have hmem : ∀ c, c ∈ collapseRunAux 45 false (collapseRunAux 58 false
        (collapseWsAux false t3)) → c = ' ' ∨ c ∈ t3 := by
      intro c hc
      exact cwa_mem t3 false c (cra_mem _ false c (cra_mem _ false c hc))
    refine ⟨?_, ?_, ?_, ?_, ?_, ?_, ?_, ?_⟩
    · -- whitespace is single spaces
      intro c hc hw
      exact cwa_ws_space t3 false c (cra_mem _ false c (cra_mem _ false c hc)) hw
    · -- head is non-whitespace
      intro c hc
      rw [cra_false_head, cra_false_head, cwa_false_head_eq h3head] at hc
      exact h3head c hc
    · -- last is non-whitespace
      intro c hc
      rcases h3l : t3.getLast? with _ | d
      · have ht3nil : t3 = [] := getLast?_none h3l
        rw [ht3nil] at hc
        simp [collapseWsAux, collapseRunAux] at hc
      · have hd : isPySpace d = false := h3last d h3l
        have s5 := cwa_last t3 false hd h3l
        have s6 := (cra_last (t := 58) _ s5).1
        have s7 := (cra_last (t := 45) _ s6).1
        rw [s7] at hc
        simp at hc
        subst hc
        exact hd
    · -- fixed by confus
      intro c hc
      rcases hmem c hc with rfl | h
      · decide
      · exact h3conf c h
    · -- slash-free
      intro c hc
      rcases hmem c hc with rfl | h
      · decide
      · exact h3slash c h
    · -- no adjacent whitespace
      refine cra_pres (fun c h => by simp [isPySpace, h]) _ false
        (cra_pres (fun c h => by simp [isPySpace, h]) _ false (cwa_noadj t3).1)
    · -- no repeated colon
      exact cra_pres (fun c h => by simp [h]) _ false (cra_noadj 58 _).1
    · -- no repeated dash
      exact (cra_noadj 45 _).1

end SNPL
namespace SNPL

/-- A string in normal form is a fixed point of `normalize_ocr`. -/
lemma normalize_ocr_fixed {y : List Char}
    (hws : ∀ c ∈ y, isPySpace c = true → c = ' ')
    (hh : ∀ c ∈ y.head?, isPySpace c = false)
    (hl : ∀ c ∈ y.getLast?, isPySpace c = false)
    (hcf : ∀ c ∈ y, confus c = c)
    (hsl : ∀ c ∈ y, isSlashLike c = false)
    (hrw : noRun isPySpace y)
    (hr58 : noRun (fun c => decide (c.toNat = 58)) y)
    (hr45 : noRun (fun c => decide (c.toNat = 45)) y) :
    normalize_ocr y = y := by
  by_cases hny : y = []
  · subst hny; rfl
  · have hne : y.isEmpty = false := by
      cases y with
      | nil => exact absurd rfl hny
      | cons a r => rfl
    have e1 : List.map (fun c => if c.toNat = 10 then ' ' else c) y = y := by
      apply map_eq_self'
      intro c hc
      by_cases h10 : c.toNat = 10
      · exfalso
        have hcw : isPySpace c = true := by simp [isPySpace, h10]
        have := hws c hc hcw
        subst this
        exact absurd h10 (by decide)
      · rw [if_neg h10]
    simp only [normalize_ocr, hne, Bool.false_eq_true, if_false]
    rw [e1, pyStrip_eq_self hh hl, map_eq_self' hcf,
      List.filter_eq_self.mpr (fun c hc => by rw [hsl c hc]; rfl),
      cwa_id hws hrw, cra_id hr58, cra_id hr45]

set_option maxHeartbeats 400000 in
/-- C9: normalization is idempotent on every input free of slash-like
characters: `normalize_ocr (normalize_ocr x) = normalize_ocr x`.  (The
restriction is forced: removing slashes after stripping can expose new
boundary whitespace that a second pass strips; see the counterexample.) -/
theorem normalize_ocr_idempotent (x : List Char) (hx : ∀ c ∈ x, isSlashLike c = false) :
    normalize_ocr (normalize_ocr x) = normalize_ocr x := by
  obtain ⟨hws, hh, hl, hcf, hsl, hrw, hr58, hr45⟩ := normalized_props hx
  exact normalize_ocr_fixed hws hh hl hcf hsl hrw hr58 hr45

/-- Counterexample to unrestricted idempotence: on "/ a" the slash is removed
after stripping, exposing a leading space that only the second pass strips. -/
theorem normalize_ocr_idempotent_cex :
    normalize_ocr (normalize_ocr ('/' :: ' ' :: 'a' :: [])) ≠
      normalize_ocr ('/' :: ' ' :: 'a' :: []) := by decide

/-- Witness: the idempotence theorem applied at a concrete slash-free input. -/
theorem normalize_ocr_idempotent_witness :
    (∀ c ∈ (' ' :: '2' :: '0' :: ':' :: ':' :: 'a' :: []), isSlashLike c = false) ∧
    normalize_ocr (normalize_ocr (' ' :: '2' :: '0' :: ':' :: ':' :: 'a' :: [])) =
      normalize_ocr (' ' :: '2' :: '0' :: ':' :: ':' :: 'a' :: []) :=
  ⟨by decide, normalize_ocr_idempotent _ (by decide)⟩

end SNPL
namespace SNPL

lemma pYear_nil {cs : Caps} {s : List Char} (h : ∀ c ∈ s.head?, cIs 50 c = false) :
    pYear cs s = [] := by
  cases s with
  | nil => rfl
  | cons c r => simp [pYear, pGrp, pCat, pSeq, pChar, pNil, h c (by simp)]

lemma pCat_pYear_nil {l : List Matcher} {cs : Caps} {s : List Char}
    (h : ∀ c ∈ s.head?, cIs 50 c = false) : pCat (pYear :: l) cs s = [] := by
  have hy : pYear cs s = [] := pYear_nil h
  simp [pCat, pSeq, hy]

lemma searchFrom_none_of_no2 {m : Matcher}
    (hm : ∀ (cs : Caps) (s : List Char), (∀ c ∈ s.head?, cIs 50 c = false) → m cs s = []) :
    ∀ s : List Char, (∀ c ∈ s, cIs 50 c = false) → searchFrom m s = none := by
  intro s
  induction s with
  | nil =>
    intro _
    unfold searchFrom
    rw [hm [] [] (by intro c hc; simp at hc)]
  | cons c t ih =>
    intro h
    rw [searchFrom_cons_fail (hm [] (c :: t) (by
      intro d hd
      simp at hd
      subst hd
      exact h c (by simp)))]
    exact ih (fun d hd => h d (List.mem_cons_of_mem _ hd))

/-- On input without the character `2`, every stage of the cascade fails. -/
lemma stage0_none_of_no2 {s : List Char} (h : ∀ c ∈ s, cIs 50 c = false) :
    stage0 s = none := by
  unfold stage0
  rw [searchFrom_none_of_no2 (fun cs z hz => by
    rw [show datePat = pCat (pYear :: [pRepG nonDig 0 4, p2d, pRepG nonDig 0 4, p2d]) from rfl]
    exact pCat_pYear_nil hz) s h]

lemma stageSix_none_of_no2 {m : Matcher}
    (hm : ∀ (cs : Caps) (z : List Char), (∀ c ∈ z.head?, cIs 50 c = false) → m cs z = [])
    {s : List Char} (h : ∀ c ∈ s, cIs 50 c = false) : stageSix m s = none := by
  unfold stageSix
  rw [searchFrom_none_of_no2 hm s h]

lemma grabFieldsLoose_none_of_no2 {s : List Char} (h : ∀ c ∈ s, cIs 50 c = false) :
    grabFieldsLoose s = none := by
  have hy : searchFrom yearSearchPat s = none :=
    searchFrom_none_of_no2 (fun cs z hz => pYear_nil hz) s h
  unfold grabFieldsLoose
  rw [hy]

set_option maxHeartbeats 1000000 in
/-- Counterexample to the unrestricted round-trip claim: the calendar-valid
tuple (1999, 1, 1, 0, 0, 0) renders to "1999-01-01 00:00:00", on which the
whole cascade fails because no pattern can match a year outside 20xx. -/
theorem parse_timestamp_flex_roundtrip_cex :
    validDT ⟨1999, 1, 1, 0, 0, 0⟩ = true ∧
    parse_timestamp_flex (renderTS ⟨1999, 1, 1, 0, 0, 0⟩) = none := by
  refine ⟨by decide, ?_⟩
  have hr : renderTS ⟨1999, 1, 1, 0, 0, 0⟩ =
      ['1', '9', '9', '9', '-', '0', '1', '-', '0', '1', ' ',
       '0', '0', ':', '0', '0', ':', '0', '0'] := by decide
  rw [hr]
  have hn : repair_time_triplets (normalize_ocr
      ['1', '9', '9', '9', '-', '0', '1', '-', '0', '1', ' ',
       '0', '0', ':', '0', '0', ':', '0', '0']) =
      ['1', '9', '9', '9', '-', '0', '1', '-', '0', '1', ' ',
       '0', '0', ':', '0', '0', ':', '0', '0'] := by decide
  have h2 : ∀ c ∈ ['1', '9', '9', '9', '-', '0', '1', '-', '0', '1', ' ',
       '0', '0', ':', '0', '0', ':', '0', '0'], cIs 50 c = false := by decide
  have h0 := stage0_none_of_no2 h2
  have hA : stageSix dtt12Pat ['1', '9', '9', '9', '-', '0', '1', '-', '0', '1', ' ',
      '0', '0', ':', '0', '0', ':', '0', '0'] = none :=
    stageSix_none_of_no2 (fun cs z hz => pCat_pYear_nil hz) h2
  have hB := grabFieldsLoose_none_of_no2 h2
  have hC : stageSix flexPat ['1', '9', '9', '9', '-', '0', '1', '-', '0', '1', ' ',
      '0', '0', ':', '0', '0', ':', '0', '0'] = none :=
    stageSix_none_of_no2 (fun cs z hz => pCat_pYear_nil hz) h2
  have hD : stageSix tsPat0 ['1', '9', '9', '9', '-', '0', '1', '-', '0', '1', ' ',
      '0', '0', ':', '0', '0', ':', '0', '0'] = none :=
    stageSix_none_of_no2 (fun cs z hz => pCat_pYear_nil hz) h2
  have hE : stageSix tsPat1 ['1', '9', '9', '9', '-', '0', '1', '-', '0', '1', ' ',
      '0', '0', ':', '0', '0', ':', '0', '0'] = none :=
    stageSix_none_of_no2 (fun cs z hz => pCat_pYear_nil hz) h2
  have hF : stageSix tsPat2 ['1', '9', '9', '9', '-', '0', '1', '-', '0', '1', ' ',
      '0', '0', ':', '0', '0', ':', '0', '0'] = none :=
    stageSix_none_of_no2 (fun cs z hz => pCat_pYear_nil hz) h2
  simp only [parse_timestamp_flex, List.isEmpty_cons, Bool.false_eq_true, if_false, hn,
    h0, hA, hB, hC, hD, hE, hF, Option.orElse]



/-- Witness: the round-trip theorem applied at the concrete valid timestamp
2024-08-01 06:31:27. -/
theorem parse_timestamp_flex_roundtrip_witness :
    validDT ⟨2024, 8, 1, 6, 31, 27⟩ = true ∧
    parse_timestamp_flex (renderTS ⟨2024, 8, 1, 6, 31, 27⟩) =
      some ⟨2024, 8, 1, 6, 31, 27⟩ :=
  ⟨by decide, parse_timestamp_flex_roundtrip ⟨2024, 8, 1, 6, 31, 27⟩ (by decide)
    (by decide) (by decide)⟩

end SNPL

